import Mathlib

/-!
Verification of the free.dm-Common core against its specification.

This file gives a shallow embedding, in Lean 4, of the parts of the
repository that the checked claims are about:

* the nested data tree and token operations of
  freedm/data/object.py (class DataObject: setValue, getValue,
  getTainted, setTainted),
* the store-level wrappers of freedm/data/store.py (class DataStore:
  setValue, getValue, loadDomain, getDomain),
* the schema-default machinery of freedm/models/__init__.py
  (__buildDefaultValue, __prepareCollectionObject, getDefaultValue),
* the connection pool of freedm/transport/connection.py and the accept
  and receive paths of freedm/transport/server/base.py.

Modelling conventions, used throughout:

* Python values (None, bool, int, str, list, dict) are the inductive
  type Val below; dicts are insertion-ordered association lists with
  string keys, matching what the repository ever stores (every key the
  code writes is a str).
* A raised Python exception is an Except.error (or an Option none when
  the surrounding code turns every exception into a logged None).
* Python str is Lean String; character-level helpers (split, join,
  lower, isdigit, int(), str()) are defined here explicitly so that
  every definition evaluates inside the kernel.  str.lower() is
  modelled on ASCII, the only alphabet the repository uses for domain
  names.
* str(n) for a natural n is natToStr, a decimal printer written with a
  structural fuel argument (fuel n+1 always suffices; see
  natToStrAux_fuel below).
-/

/-! ## Character and string helpers (Python str methods) -/

/-- Python str.isdigit(): non-empty and every character a digit. -/
def isDigitStr (s : String) : Bool :=
  !s.data.isEmpty && s.data.all (fun c => c.isDigit)

/-- Python int(s) for a digit string (decimal). -/
def strToNat (s : String) : Nat :=
  s.data.foldl (fun a c => a * 10 + (c.toNat - 48)) 0

/-- Decimal digit character for a value below ten. -/
def digitChar10 : Nat → Char
  | 0 => '0' | 1 => '1' | 2 => '2' | 3 => '3' | 4 => '4'
  | 5 => '5' | 6 => '6' | 7 => '7' | 8 => '8' | _ => '9'

/-- Decimal digits of n, most significant first, with structural fuel. -/
def natToStrAux (fuel : Nat) (n : Nat) : List Char :=
  match fuel with
  | 0 => []
  | fuel + 1 =>
    if n < 10 then [digitChar10 n]
    else natToStrAux fuel (n / 10) ++ [digitChar10 (n % 10)]

/-- Python str(n) for a natural number n. -/
def natToStr (n : Nat) : String := ⟨natToStrAux (n + 1) n⟩

/-- Python token.split(chr): splitting a character list at every dot. -/
def splitDot : List Char → List (List Char)
  | [] => [[]]
  | '.' :: rest => [] :: splitDot rest
  | c :: rest =>
    match splitDot rest with
    | s :: ss => (c :: s) :: ss
    | [] => [[c]]

/-- Python token.split('.'). -/
def pySplit (t : String) : List String := (splitDot t.data).map (fun cs => ⟨cs⟩)

/-- Python token.split('.', 1): the domain part and, when a dot exists,
the remainder. -/
def splitDotOnce : List Char → Option (List Char × List Char)
  | [] => none
  | '.' :: rest => some ([], rest)
  | c :: rest =>
    match splitDotOnce rest with
    | some (a, b) => some (c :: a, b)
    | none => none

/-- Python token.split('.', 1) packaged on String. -/
def pySplitOnce (t : String) : String × Option String :=
  match splitDotOnce t.data with
  | some (a, b) => (⟨a⟩, some ⟨b⟩)
  | none => (t, none)

/-- Python chr-join helper for a list of token segments. -/
def joinDotChars : List String → List Char
  | [] => []
  | [s] => s.data
  | s :: rest => s.data ++ '.' :: joinDotChars rest

/-- Python sep.join(tokens) with a dot separator. -/
def joinDot (l : List String) : String := ⟨joinDotChars l⟩

/-- ASCII model of Python str.lower() on one character. -/
def asciiLowerChar (c : Char) : Char :=
  if 'A' ≤ c ∧ c ≤ 'Z' then Char.ofNat (c.toNat + 32) else c

/-- ASCII model of Python str.lower(). -/
def pyLower (s : String) : String := ⟨s.data.map asciiLowerChar⟩

/-- Python s.strip() == chr test: every character is whitespace. -/
def isBlankStr (s : String) : Bool :=
  s.data.all (fun c => c = ' ' ∨ c = '\t' ∨ c = '\n' ∨ c = '\r')

/-! ## Python values

Val models the nested data the repository manipulates: scalars, lists
and insertion-ordered string-keyed dicts (every key the code itself
writes is a str; integer-keyed dicts never arise from the modelled
operations, and getValue's data[int(key)] probe on a string-keyed dict
raises KeyError, landing in the string-key lookup that dget models). -/

inductive Val where
  | null : Val
  | b : Bool → Val
  | i : Int → Val
  | s : String → Val
  | list : List Val → Val
  | dict : List (String × Val) → Val

/-- Python isinstance(v, list). -/
def Val.isList : Val → Bool
  | .list _ => true
  | _ => false

/-- Python isinstance(v, dict). -/
def Val.isDict : Val → Bool
  | .dict _ => true
  | _ => false

/-- Python v is None. -/
def Val.isNull : Val → Bool
  | .null => true
  | _ => false

/-- Python truthiness of a value. -/
def pyTruthy : Val → Bool
  | .null => false
  | .b x => x
  | .i x => decide (x ≠ 0)
  | .s x => decide (x ≠ "")
  | .list xs => !xs.isEmpty
  | .dict d => !d.isEmpty

/-- Python dict lookup d[key] / d.get(key) on the association list. -/
def dget : List (String × Val) → String → Option Val
  | [], _ => none
  | (k, v) :: r, key => if k = key then some v else dget r key

/-- Python dict write d[key] = v / d.update({key: v}): replaces in
place when the key exists, appends otherwise (insertion order). -/
def dset : List (String × Val) → String → Val → List (String × Val)
  | [], key, v => [(key, v)]
  | (k, w) :: r, key, v => if k = key then (k, v) :: r else (k, w) :: dset r key v

/-- The null-padding of setValue: if len(data) <= key, append None
until the index key exists. -/
def pad (xs : List Val) (k : Nat) : List Val :=
  if xs.length ≤ k then xs ++ List.replicate (k + 1 - xs.length) .null else xs

/-- Python sorted(list(map(int, data.keys()))).pop(): the largest
integer among the (all-digit) keys. -/
def maxIntKey (d : List (String × Val)) : Nat :=
  (d.map (fun p => strToNat p.1)).foldl Nat.max 0

/-! ## DataObject.setValue (data/object.py, lines 296-429)

setGo is the loop of setValue rendered functionally: its first argument
is the loop cursor `data`, the result is the new value of that subtree
together with the canonical token segments built from this point on
(the loop's `token` list).  Python mutates shared structure through the
cursor, so each recursive result is plugged back into the parent node —
except in the branch where the source rebinds the local `data` to a
fresh dict ({'0' if key == '[]' else key: new_value}) over a scalar
cursor: there the parent keeps the scalar and the continuation runs on
the disconnected fresh dict (its writes are lost), exactly as in
Python.  An Except.error is a raised exception (setValue re-raises
and then records no taint); the partial mutations a raising Python call
leaves behind are not modelled, and no claim depends on them. -/

def setGo : Val → List String → Val → Except Unit (Val × List String)
  | data, [], _ => .ok (data, [])
  | data, key :: rest, value =>
    let isLast := rest.isEmpty
    let newVal : Val := if isLast then value else Val.dict []
    if isDigitStr key || key = "[]" then
      match data with
      | .list xs =>
        if key = "[]" then
          -- append at index len(data); the cursor is not advanced
          if isLast then .ok (.list (xs ++ [newVal]), [natToStr xs.length])
          else
            match setGo (.list (xs ++ [newVal])) rest value with
            | .ok (d', tok) => .ok (d', natToStr xs.length :: tok)
            | .error e => .error e
        else
          let k := strToNat key
          let xs1 := pad xs k
          let elem := xs1.getD k .null
          -- the skip rule: a list element is not overwritten by a dict
          let write := !(elem.isList && newVal.isDict)
          let xs2 := if write then xs1.set k newVal else xs1
          if isLast then .ok (.list xs2, [key])
          else
            let child := if write then newVal else elem
            match setGo child rest value with
            | .ok (c', tok) => .ok (.list (xs2.set k c'), key :: tok)
            | .error e => .error e
      | .dict d =>
        -- '[]' allocates str(max int key + 1), or '0' when the keys are
        -- not all digits (int() raises) or the dict is empty (pop() raises)
        let key2 := if key = "[]" then
            (if !d.isEmpty && d.all (fun p => isDigitStr p.1)
             then natToStr (maxIntKey d + 1) else "0")
          else key
        let d1 := dset d key2 newVal
        if isLast then .ok (.dict d1, [key2])
        else
          match setGo newVal rest value with
          | .ok (c', tok) => .ok (.dict (dset d1 key2 c'), key2 :: tok)
          | .error e => .error e
      | _ =>
        -- scalar cursor: the local data is rebound to a fresh dict,
        -- disconnected from the tree; for '[]' the cursor then stays on
        -- that dict, otherwise it advances into new_value
        let canonKey := if key = "[]" then "0" else key
        if isLast then .ok (data, [canonKey])
        else
          let fresh := if key = "[]" then Val.dict [("0", newVal)] else newVal
          match setGo fresh rest value with
          | .ok (_, tok) => .ok (data, canonKey :: tok)
          | .error e => .error e
    else if isLast && key = "" then
      -- a final empty segment merges a dict value into the cursor
      match data with
      | .dict d =>
        match value with
        | .dict vd => .ok (.dict (vd.foldl (fun acc p => dset acc p.1 p.2) d), [])
        | _ => .error ()
      | _ => .error ()
    else
      if isLast then
        match data with
        | .dict d => .ok (.dict (dset d key value), [key])
        | .list xs =>
          -- data[-1].update({key: value}): needs a dict as last element
          match xs.getLast? with
          | some (.dict ld) =>
            .ok (.list (xs.dropLast ++ [Val.dict (dset ld key value)]), [key])
          | some _ => .error ()
          | none => .error ()
        | _ => .ok (data, [key])  -- no branch taken: silent break
      else
        match data with
        | .dict d =>
          match rest with
          | [] => .error ()  -- unreachable: isLast would be true
          | nxt :: _ =>
            -- look ahead: before a numeric segment, data[key] = {} only
            -- when data.get(key) is None; before another identifier,
            -- whenever data.get(key) is not a dict
            let lookahead := isDigitStr nxt || nxt = "[]"
            let cur := dget d key
            let keep : Bool := if lookahead
              then (match cur with | none => false | some .null => false | some _ => true)
              else (match cur with | some (.dict _) => true | _ => false)
            let child := if keep then cur.getD .null else newVal
            let d1 := if keep then d else dset d key newVal
            match setGo child rest value with
            | .ok (c', tok) => .ok (.dict (dset d1 key c'), key :: tok)
            | .error e => .error e
        | _ => .error ()  -- data.get on a list or scalar raises
termination_by structural data keys value => keys

/-- The compatibility predicate under which the set/get round trip is
proved: it mirrors setGo's branch structure and returns false exactly
on the branches where the write is disconnected (numeric segment over a
scalar), suppressed (the list/dict skip rule on the final segment),
misdirected (a final identifier against a sequence, whose read returns
a projection list), or raising, and on '+'/empty segments, which the
claim's token grammar excludes. -/
def canSet : Val → List String → Val → Bool
  | _, [], _ => false
  | data, key :: rest, v =>
    if isDigitStr key then
      match data with
      | .list xs =>
        let k := strToNat key
        let xs1 := pad xs k
        let elem := xs1.getD k .null
        match rest with
        | [] => !(elem.isList && v.isDict)
        | _ :: _ => canSet (if elem.isList then elem else Val.dict []) rest v
      | .dict _ =>
        match rest with
        | [] => true
        | _ :: _ => canSet (Val.dict []) rest v
      | _ => false
    else if key = "[]" then
      match data with
      | .list _ =>
        match rest with
        | [] => true
        | [k2] => !(isDigitStr k2) && !(k2 = "[]") && !(k2 = "+") && !(k2 = "")
        | _ => false
      | .dict _ =>
        match rest with
        | [] => true
        | _ :: _ => canSet (Val.dict []) rest v
      | _ => false
    else if !(key = "+") && !(key = "") then
      match data with
      | .dict d =>
        match rest with
        | [] => true
        | nxt :: _ =>
          let lookahead := isDigitStr nxt || nxt = "[]"
          let cur := dget d key
          let child := if lookahead
            then (match cur with
                  | none => Val.dict []
                  | some .null => Val.dict []
                  | some c => c)
            else (match cur with
                  | some (.dict cd) => Val.dict cd
                  | _ => Val.dict [])
          canSet child rest v
      | _ => false
    else false
termination_by structural data keys v => keys

/-! ## DataObject.getValue (data/object.py, lines 144-294)

getGo walks the key segments; self is the DataObject the method runs
on (used by the recursive self.getValue calls of the '+' branch) and
prev is the previously consumed segment (keys[index-1]).  Every raised
exception of the source is converted to LookupError, here Except.error.
The '+'-over-list branch joins the remaining segments and calls
self.getValue on each element inside the try; splitting the rejoined
path returns exactly the remaining segment list, so the recursion runs
on rest directly.  An exception inside that try is caught by
`except: pass`, after which the loop continues on the unchanged list.
Pathological elements for which next(iter(i)) is not a dict key
(non-dict elements) are modelled as raising. -/

def getGo (self : Val) (prev : Option String) (data : Val) :
    List String → Except Unit Val
  | [] => .ok data
  | key :: rest =>
    if isDigitStr key then
      match data with
      | .dict d =>
        match dget d key with
        | some v => getGo self (some key) v rest
        | none => .error ()
      | .list xs =>
        match xs.get? (strToNat key) with
        | some v => getGo self (some key) v rest
        | none => .error ()
      | _ => .error ()
    else if key = "[]" then
      match data with
      | .dict d =>
        if !d.isEmpty && d.all (fun p => isDigitStr p.1) then
          getGo self (some key) (.list (d.map (fun p => p.2))) rest
        else .error ()
      | .list xs => getGo self (some key) (.list xs) rest
      | _ => .error ()
    else if key = "+" then
      match data with
      | .dict d =>
        getGo self (some key)
          (.list (d.map (fun p => if isDigitStr p.1 then p.2 else Val.dict [p]))) rest
      | .list xs =>
        if prev = some "+" || prev = some "[]" then
          match xs.mapM (fun e =>
              match e with
              | Val.dict ((k2, v2) :: _) =>
                match getGo self none v2 rest with
                | .ok r => some (Val.dict [(k2, r)])
                | .error _ => none
              | _ => none) with
          | some items => .ok (.list items)
          | none => getGo self (some key) (.list xs) rest
        else
          match rest with
          | nxt :: _ =>
            if isDigitStr nxt then
              match xs.mapM (fun e =>
                  match getGo self none e rest with
                  | .ok r => some r
                  | .error _ => none) with
              | some items => .ok (.list items)
              | none => getGo self (some key) (.list xs) rest
            else getGo self (some key) (.list xs) rest
          | [] => getGo self (some key) (.list xs) rest
      | _ => getGo self (some key) .null rest
    else
      match data with
      | .dict d =>
        match dget d key with
        | some v => getGo self (some key) v rest
        | none => .error ()
      | .list xs =>
        let collected := xs.filterMap (fun v =>
          match v with
          | .dict vd => dget vd key
          | _ => none)
        if collected.isEmpty then .error ()
        else getGo self (some key) (.list collected) rest
      | _ => .error ()
termination_by structural keys => keys

/-! ## DataObject (data/object.py) -/

/-- A DataObject: the nested tree, the change log (_changed) and the
syncing flag. -/
structure DataObj where
  data : Val := .dict []
  changed : List String := []
  syncing : Bool := false

/-- DataObject.setTainted: append the token to the change log unless
already present. -/
def DataObj.setTainted (o : DataObj) (t : String) : DataObj :=
  if t ∈ o.changed then o else { o with changed := o.changed ++ [t] }

/-- DataObject.setValue on pre-split key segments: run the loop, join
the rebuilt canonical token and record it in the taint log.  Returns
the updated object and the canonical token (the source returns True;
the canonical token is what it passes to setTainted). -/
def DataObj.setValueKeys (o : DataObj) (keys : List String) (value : Val) :
    Except Unit (DataObj × String) :=
  match setGo o.data keys value with
  | .ok (d', canon) =>
    let tok := joinDot canon
    .ok (DataObj.setTainted { o with data := d' } tok, tok)
  | .error e => .error e

/-- DataObject.setValue on the token string. -/
def DataObj.setValue (o : DataObj) (token : String) (value : Val) :
    Except Unit (DataObj × String) :=
  o.setValueKeys (pySplit token) value

/-- DataObject.getValue on pre-split key segments. -/
def DataObj.getValueKeys (o : DataObj) (keys : List String) : Except Unit Val :=
  getGo o.data none o.data keys

/-- DataObject.getValue on the token string (token == '' returns the
whole domain tree). -/
def DataObj.getValue (o : DataObj) (token : String) : Except Unit Val :=
  if token = "" then .ok o.data else getGo o.data none o.data (pySplit token)

/-! ## Transport server: chunked receive loop (server/base.py,
TransportServer._handleConnection, lines 279-299)

The chunked branch of the receive loop reads while the client never
sends an EOF.  The loop state is the counter chunks; per iteration the
code computes chunksize = min(limit, chunksize), consumed =
chunks * chunksize_config, rest = limit - consumed, and breaks when
limit == min(limit, chunksize) with chunks > 0 (limit not larger than
the chunk size after the first read) or when rest <= 0.  chunkLoop
counts the remaining reads; the configured chunk size is passed as
Cm1 + 1 because the loop only runs under `if self.chunksize:`, i.e.
with a truthy (positive) chunk size. -/

def chunkLoop (L Cm1 k : Nat) : Nat :=
  if L ≤ Cm1 + 1 ∧ 0 < k then 0
  else if L ≤ k * (Cm1 + 1) then 0
  else chunkLoop L Cm1 (k + 1) + 1
termination_by L - k * (Cm1 + 1)
decreasing_by
  rename_i h1 h2
  simp at h1 h2
  have hstep : (k + 1) * (Cm1 + 1) = k * (Cm1 + 1) + (Cm1 + 1) := by ring
  omega

/-- Number of reads performed on a connection by the chunked receive
loop configured with limit L and chunksize C, against a peer that never
closes: the loop of _handleConnection starting at chunks = 0. -/
def chunkReads (L C : Nat) : Nat :=
  if C = 0 then 0 else chunkLoop L (C - 1) 0

/-! ## Connection pool (transport/connection.py, lines 28-49) -/

/-- The exception freedmConnectionPoolMax raised by the max setter. -/
inductive PoolError where
  | freedmConnectionPoolMax : PoolError
deriving DecidableEq

/-- ConnectionPool: a set of session-handler tasks with an optional
capacity.  The pool's session tasks are abstracted to their count
(len(self)); every pool query the claims touch only uses the length. -/
structure ConnectionPool where
  size : Nat
  max : Option Nat
deriving DecidableEq

/-- The max property setter: accepts the new amount only when it is
strictly above the current number of pooled connections, otherwise
raises freedmConnectionPoolMax. -/
def ConnectionPool.setMax (p : ConnectionPool) (amount : Nat) :
    Except PoolError ConnectionPool :=
  if p.size < amount then .ok { p with max := some amount }
  else .error .freedmConnectionPoolMax

/-- isFull(): False if max is unset (None or 0, both falsy in Python),
otherwise max <= len(self). -/
def ConnectionPool.isFull (p : ConnectionPool) : Bool :=
  match p.max with
  | none => false
  | some m => if m = 0 then false else decide (m ≤ p.size)

/-- What _onConnectionEstablished decides to do with a new session. -/
inductive SessionAction where
  | rejected (reason : String) : SessionAction
  | handled : SessionAction
deriving DecidableEq

/-- TransportServer._onConnectionEstablished (server/base.py, lines
196-211): if the pool is full, schedule rejectConnection with the
reason string and leave the pool unchanged; otherwise register the new
session task in the pool and serve it. -/
def onConnectionEstablished (p : ConnectionPool) : ConnectionPool × SessionAction :=
  if p.isFull then (p, .rejected "Too many connections")
  else ({ p with size := p.size + 1 }, .handled)

/-! ## Taint log reduction (data/object.py, DataObject.getTainted,
lines 105-142; identical in data/objects.py lines 1115-1152)

getTainted sorts the change-log tokens and then drops a token exactly
when the previous token of the sorted list, or the most recently kept
token, occurs in it — Python's `prev in this` is a SUBSTRING test on
strings.  A log containing the empty token collapses to ["*"]. -/

/-- Python list-of-str prefix test at character level (b starts with a). -/
def chStarts : List Char → List Char → Bool
  | [], _ => true
  | _ :: _, [] => false
  | a :: as, b :: bs => a == b && chStarts as bs

/-- Python `a in b` on strings: a occurs in b as a contiguous substring. -/
def chSub (a : List Char) : List Char → Bool
  | [] => chStarts a []
  | b :: bs => chStarts a (b :: bs) || chSub a bs

/-- Python `a in b` packaged on String. -/
def isSubstr (a b : String) : Bool := chSub a.data b.data

/-- Python string comparison (lexicographic on code points). -/
def lexLt : List Char → List Char → Bool
  | [], [] => false
  | [], _ :: _ => true
  | _ :: _, [] => false
  | c :: cs, d :: ds =>
    decide (c.val < d.val) || (c.val == d.val && lexLt cs ds)

/-- Python a < b on strings. -/
def strLtb (a b : String) : Bool := lexLt a.data b.data

/-- Insertion step of the sort used to model Python tokens.sort(). -/
def insertSorted (x : String) : List String → List String
  | [] => [x]
  | y :: ys => if strLtb y x then y :: insertSorted x ys else x :: y :: ys

/-- Python tokens.sort(): ascending; for strings any sorted permutation
agrees with CPython's since equal strings are indistinguishable. -/
def pySort (l : List String) : List String := l.foldr insertSorted []

/-- The reduction loop of getTainted over the sorted tail: prev is the
previous token of the sorted list (kept or not), lastKept mirrors
reduced[-1], acc holds the kept tokens in reverse. -/
def reduceAux (prev lastKept : String) (acc : List String) :
    List String → List String
  | [] => acc.reverse
  | t :: ts =>
    if isSubstr prev t then reduceAux t lastKept acc ts
    else if isSubstr lastKept t then reduceAux t lastKept acc ts
    else reduceAux t t (t :: acc) ts

/-- DataObject.getTainted on a given change-log content (the reset flag
only empties the deque afterwards and does not change the result). -/
def pyGetTainted (changed : List String) : List String :=
  if changed.contains "" then ["*"]
  else
    match pySort changed with
    | [] => []
    | t :: ts => reduceAux t t [t] ts

/-! ## Repeated append (the scenario of spec section 8, property 3)

appendN performs setValue("x.[]", V) once per value, starting from a
given DataObject; enumPairs is the integer-keyed mapping {"0": V1,
"1": V2, ...} that the sets build under "x". -/

/-- One setValue("x.[]", V) call (the canonical token is discarded). -/
def appendStep (o : DataObj) (v : Val) : DataObj :=
  match o.setValueKeys ["x", "[]"] v with
  | .ok (o', _) => o'
  | .error _ => o

/-- setValue("x.[]", V_i) for each value in order. -/
def appendN (o : DataObj) (vs : List Val) : DataObj := vs.foldl appendStep o

/-- The pairs (str(i), V) numbering the values from i upwards. -/
def enumPairsAux (i : Nat) : List Val → List (String × Val)
  | [] => []
  | v :: vs => (natToStr i, v) :: enumPairsAux (i + 1) vs

/-- The integer-keyed mapping str(0) to V1, str(1) to V2, and so on. -/
def enumPairs (vs : List Val) : List (String × Val) := enumPairsAux 0 vs

/-! ## Collection normalization (models/__init__.py,
__prepareCollectionObject, lines 80-120)

traverseDataObject rebinds its local variable when it reshapes a
numeric dict into a list or rebuilds a list, but it assigns
obj[element] = traverseDataObject(obj[element]) IN PLACE on a
non-numeric dict.  __prepareCollectionObject copies only the top level
(data.copy() is shallow), so the traversal's in-place writes reach
every nested value of the original object.  pcNorm is the value the
traversal returns, pcAfter the state an object is left in after the
traversal ran on it, pcOriginalAfter the state of the original
argument after __prepareCollectionObject, and pcPrepare the function's
return value. -/

/-- A nonempty mapping all of whose keys are decimal digit strings
(len(obj.keys()) > 0 and all(k.isdigit() ...)). -/
def isNumDict (d : List (String × Val)) : Bool :=
  !d.isEmpty && d.all (fun p => isDigitStr p.1)

/-- The value returned by traverseDataObject(v): numeric dicts become
lists of their traversed values, lists are rebuilt from traversed
elements, non-numeric dicts keep their keys over traversed values,
scalars are returned as is. -/
def pcNorm : Val → Val
  | .dict d =>
    if isNumDict d then .list (d.attach.map (fun p => pcNorm p.1.2))
    else .dict (d.attach.map (fun p => (p.1.1, pcNorm p.1.2)))
  | .list xs => .list (xs.attach.map (fun x => pcNorm x.1))
  | .null => .null
  | .b x => .b x
  | .i x => .i x
  | .s x => .s x
termination_by v => sizeOf v
decreasing_by
  · have h1 := List.sizeOf_lt_of_mem p.2
    have h2 : sizeOf p.1 = 1 + sizeOf p.1.1 + sizeOf p.1.2 := by
      obtain ⟨⟨a, b⟩, hp⟩ := p
      simp
    simp only [Val.dict.sizeOf_spec]
    omega
  · have h1 := List.sizeOf_lt_of_mem p.2
    have h2 : sizeOf p.1 = 1 + sizeOf p.1.1 + sizeOf p.1.2 := by
      obtain ⟨⟨a, b⟩, hp⟩ := p
      simp
    simp only [Val.dict.sizeOf_spec]
    omega
  · have h1 := List.sizeOf_lt_of_mem x.2
    simp only [Val.list.sizeOf_spec]
    omega

/-- The state v itself is left in after traverseDataObject(v) ran on
it: a numeric dict keeps its keys (the code rebinds its local name to
a list and never writes back) but its shared values are traversed; a
list keeps its cells while its elements are traversed; a non-numeric
dict has every slot overwritten with the traversal result of its
value; scalars are untouched. -/
def pcAfter : Val → Val
  | .dict d =>
    if isNumDict d then .dict (d.attach.map (fun p => (p.1.1, pcAfter p.1.2)))
    else .dict (d.attach.map (fun p => (p.1.1, pcNorm p.1.2)))
  | .list xs => .list (xs.attach.map (fun x => pcAfter x.1))
  | .null => .null
  | .b x => .b x
  | .i x => .i x
  | .s x => .s x
termination_by v => sizeOf v
decreasing_by
  · have h1 := List.sizeOf_lt_of_mem p.2
    have h2 : sizeOf p.1 = 1 + sizeOf p.1.1 + sizeOf p.1.2 := by
      obtain ⟨⟨a, b⟩, hp⟩ := p
      simp
    simp only [Val.dict.sizeOf_spec]
    omega
  · have h1 := List.sizeOf_lt_of_mem x.2
    simp only [Val.list.sizeOf_spec]
    omega

/-- The state of the original argument after
__prepareCollectionObject(data): the shallow copy shields the top
level (the copy's own slots are written, not the original's), but each
nested value is shared with the original and traversed in place. -/
def pcOriginalAfter : Val → Val
  | .dict d => .dict (d.map (fun p => (p.1, pcAfter p.2)))
  | .list xs => .list (xs.map pcAfter)
  | v => v

/-- The value returned by __prepareCollectionObject(data). -/
def pcPrepare : Val → Val
  | .dict d => pcNorm (.dict d)
  | .list xs => pcNorm (.list xs)
  | v => v

/-! ## Schema defaults (models/__init__.py, __buildDefaultValue lines
21-78 and getDefaultValue lines 140-249)

The registry is pydoc.locate over freedm.models.<domain>: a domain
resolves to a schema module (whose __dict__ maps schema names to dict
schemas, as in freedm.models.freedm) or, in the isinstance(cls, dict)
branches, to a dict.  RegCls carries which of the two shapes applies
and the name-to-schema entries.  Python None and a stored null are the
same value to .get(), folded by optNonNull/vGet.  The only freedom
taken from the source: set(required).intersection(...) iterates in
unspecified (hash) order, rendered here as first-occurrence order of
the required list; every claim checked below reads the built mapping
through dget, which is order-insensitive.  All raising paths of
__buildDefaultValue end in its own except: return None, hence Val.null
results rather than errors. -/

/-- Python schema.get(k) on a dict: the stored value or None. -/
def vGet (d : List (String × Val)) (k : String) : Val := (dget d k).getD Val.null

/-- Python schema.get('type') == name. -/
def typeIs (d : List (String × Val)) (name : String) : Bool :=
  match dget d "type" with
  | some (Val.s t) => t == name
  | _ => false

/-- Python set(required): the hashable members, as strings (non-string
hashables never intersect the string key set); a list or dict member
is unhashable and raises TypeError, a non-iterable required raises. -/
def valKeys : Val → Option (List String)
  | Val.list rs =>
    if rs.all (fun r => match r with
        | Val.list _ => false
        | Val.dict _ => false
        | _ => true)
    then some (rs.filterMap (fun r => match r with | Val.s k => some k | _ => none))
    else none
  | Val.s t => some (t.data.map (fun c => String.mk [c]))
  | Val.dict d2 => some (d2.map (fun p => p.1))
  | _ => none

/-- Lookup in the properties table paired with each subschema's
recursively built default. -/
def tget : List (String × Val × Val) → String → Option (Val × Val)
  | [], _ => none
  | (k, p) :: r, key => if k = key then some p else tget r key

/-- One required/possible key passes the loop without raising: its
property exists and, when truthy, is a dict (p.get would raise
otherwise). -/
def bdOk (tbl : List (String × Val × Val)) (k : String) : Bool :=
  match tget tbl k with
  | some (p, _) => !(pyTruthy p) || p.isDict
  | none => false

/-- The default entry the loop stores for one key: the recursive
default for an array/object-typed subschema, its declared default for
any other truthy dict subschema, None for a falsy subschema. -/
def bdEntry (tbl : List (String × Val × Val)) (k : String) : Val :=
  match tget tbl k with
  | some (p, bv) =>
    if pyTruthy p then
      match p with
      | Val.dict pd =>
        if typeIs pd "array" || typeIs pd "object" then bv else vGet pd "default"
      | _ => Val.null
    else Val.null
  | none => Val.null

/-- The for-loop of the object branch over the possible keys: the
built default dict, or None when some key raises. -/
def bdAssemble (tbl : List (String × Val × Val)) (ks : List String) : Val :=
  if ks.all (bdOk tbl) then Val.dict (ks.map (fun k => (k, bdEntry tbl k)))
  else Val.null

/-- models.__buildDefaultValue(schema): 'array' gives []; 'object'
builds the defaults of the required properties (of all properties when
required is falsy or properties empty); any other dict returns its
declared default when it carries a truthy 'type' and otherwise recurses
over all its keys; every non-dict schema and every raising path gives
None. -/
def buildDefaultValue : Val → Val
  | Val.dict d =>
    if typeIs d "array" then Val.list []
    else if typeIs d "object" then
      match hp : dget d "properties" with
      | some (Val.dict props) =>
        if props.isEmpty then Val.dict []
        else
          let tbl := props.attach.map (fun q => (q.1.1, q.1.2, buildDefaultValue q.1.2))
          let req := (dget d "required").getD Val.null
          if pyTruthy req then
            match valKeys req with
            | some ks => bdAssemble tbl (ks.dedup.filter (fun k => (tget tbl k).isSome))
            | none => Val.null
          else bdAssemble tbl (props.map (fun q => q.1))
      | some pv => if pyTruthy pv then Val.null else Val.dict []
      | none => Val.dict []
    else if pyTruthy (vGet d "type") then vGet d "default"
    else Val.dict (d.attach.map (fun q => (q.1.1, buildDefaultValue q.1.2)))
  | _ => Val.null
termination_by v => sizeOf v
decreasing_by
  · have hlem : ∀ (L : List (String × Val)) (key : String) (v : Val),
        dget L key = some v → sizeOf v < sizeOf L := by
      intro L
      induction L with
      | nil =>
        intro key v hv
        rw [dget] at hv
        exact absurd hv (by simp)
      | cons q2 r ih =>
        intro key v hv
        obtain ⟨k1, w⟩ := q2
        rw [dget] at hv
        by_cases he : k1 = key
        · rw [if_pos he] at hv
          injection hv with hv2
          subst hv2
          simp
          omega
        · rw [if_neg he] at hv
          have := ih key v hv
          simp
          omega
    have h1 := hlem _ _ _ hp
    have h2 := List.sizeOf_lt_of_mem q.2
    have h3 : sizeOf q.1 = 1 + sizeOf q.1.1 + sizeOf q.1.2 := by
      obtain ⟨⟨a, b⟩, hq⟩ := q
      simp
    simp only [Val.dict.sizeOf_spec] at h1 ⊢
    omega
  · have h1 := List.sizeOf_lt_of_mem q.2
    have h2 : sizeOf q.1 = 1 + sizeOf q.1.1 + sizeOf q.1.2 := by
      obtain ⟨⟨a, b⟩, hq⟩ := q
      simp
    simp only [Val.dict.sizeOf_spec]
    omega

/-- Fold Python None and a stored null into the same absence. -/
def optNonNull : Option Val → Option Val
  | some Val.null => none
  | some v => some v
  | none => none

/-- getDefaultValue, 3rd possibility, items fallback: obj =
schema.get('items').get('properties').get(t) when items is a dict,
raising where the chained .get hits None or a non-dict. -/
def gdvItems (sd : List (String × Val)) (t : String) : Except Unit (Option Val) :=
  match dget sd "items" with
  | some iv =>
    if pyTruthy iv then
      match iv with
      | Val.dict idd =>
        match dget idd "properties" with
        | some (Val.dict ipd) => .ok (optNonNull (dget ipd t))
        | _ => .error ()
      | _ => .ok none
    else .ok none
  | none => .ok none

/-- getDefaultValue, 3rd possibility: obj = schema.get(t), else the
properties table, else the items fallback. -/
def gdvObj (sd : List (String × Val)) (t : String) : Except Unit (Option Val) :=
  match vGet sd t with
  | Val.null =>
    match dget sd "properties" with
    | some p =>
      if pyTruthy p then
        match p with
        | Val.dict pd2 => .ok (optNonNull (dget pd2 t))
        | _ => .error ()
      else gdvItems sd t
    | none => gdvItems sd t
  | v => .ok (some v)

/-- The token-traversal loop of getDefaultValue (lines 180-228) over
the remaining key segments, plus the code after the loop (the
schema-is-None arm after it is unreachable: the loop only continues on
a non-None obj).  Every exception of the surrounding try lands in the
logged except path, which returns None. -/
def gdvLoop : Val → List String → Val
  | schema, [] =>
    if pyTruthy schema then
      match schema with
      | Val.dict sd =>
        (match dget sd "default" with
         | some dv => if pyTruthy dv then dv else Val.null
         | none => Val.null)
      | _ => Val.null
    else Val.null
  | schema, t :: rest =>
    match schema with
    | Val.dict sd =>
      if isDigitStr t && typeIs sd "array" then
        match dget sd "items" with
        | some (Val.dict od) =>
          if rest.isEmpty then buildDefaultValue (Val.dict od)
          else gdvLoop (Val.dict od) rest
        | some Val.null => Val.null
        | some o => gdvLoop o rest
        | none => Val.null
      else if t == "[]" && typeIs sd "array" then Val.list []
      else
        match gdvObj sd t with
        | .error _ => Val.null
        | .ok none => Val.null
        | .ok (some ov) =>
          if rest.isEmpty then
            match ov with
            | Val.dict od =>
              if typeIs od "array" then Val.list []
              else if typeIs od "object" then buildDefaultValue (Val.dict od)
              else gdvLoop ov rest
            | _ => Val.null
          else gdvLoop ov rest
    | _ => Val.null
termination_by structural schema keys => keys

/-- What pydoc.locate resolves a domain to: a schema module (its
__dict__ maps names to schemas; always truthy) or a plain dict. -/
structure RegCls where
  isdict : Bool
  entries : List (String × Val)

/-- Registry lookup: locate('freedm.models.<domain>'). -/
def rget : List (String × RegCls) → String → Option RegCls
  | [], _ => none
  | (k, c) :: r, key => if k = key then some c else rget r key

/-- Python truthiness of the located cls. -/
def clsTruthy (c : RegCls) : Bool := if c.isdict then !c.entries.isEmpty else true

/-- The name base used for key tokens: (cls.get('properties') or cls)
for a dict cls (indexing raises when properties is truthy non-dict),
cls.__dict__ for a module. -/
def clsBase (c : RegCls) : Except Unit (List (String × Val)) :=
  if c.isdict then
    match dget c.entries "properties" with
    | some pv =>
      if pyTruthy pv then
        match pv with
        | Val.dict pd => .ok pd
        | _ => .error ()
      else .ok c.entries
    | none => .ok c.entries
  else .ok c.entries

/-- The whole-domain schema of the elif cls branch: the non-underscore
names of the cls. -/
def clsSchema (c : RegCls) : List (String × Val) :=
  c.entries.filter (fun p => match p.1.data with
    | ch :: _ => !(ch == '_')
    | [] => true)

/-- models.getDefaultValue(token) against a registry of domains: split
the domain off the token, locate its cls, walk the key tokens (single
key directly, several through gdvLoop), build the whole-domain default
when the token is only a domain, and return None when no cls is found
or any step raises. -/
def pyGetDefaultValue (reg : List (String × RegCls)) (token : String) : Val :=
  match rget reg (pySplitOnce token).1 with
  | none => Val.null
  | some cls =>
    if clsTruthy cls && (match (pySplitOnce token).2 with
        | some key => !(key == "")
        | none => false) then
      match clsBase cls with
      | .error _ => Val.null
      | .ok bd =>
        match pySplit ((pySplitOnce token).2.getD "") with
        | [t0] =>
          (match dget bd t0 with
           | some schema =>
             (match schema with
              | Val.dict sd =>
                if typeIs sd "array" then Val.list []
                else if typeIs sd "object" then buildDefaultValue (Val.dict sd)
                else vGet sd "default"
              | _ => Val.null)
           | none => Val.null)
        | t0 :: t1 :: restT =>
          (match dget bd t0 with
           | some schema => gdvLoop schema (t1 :: restT)
           | none => Val.null)
        | [] => Val.null
    else if clsTruthy cls then buildDefaultValue (Val.dict (clsSchema cls))
    else Val.null

/-! ## DataStore (data/store.py, setValue lines 251-320 and getValue
lines 322-396)

The store is modelled by its flags and its domain map _data; the
manager-dependent pieces are abstract parameters: gd is
getDomain/auto-loading (it returns the loaded DataObject or None), and
StoreOps collects models.getValidatedValue (value or None),
models.getDefaultValue, _getRaw and _setRaw of the concrete backend
(raising modelled as Except.error).  __tokenize's auto-loaded domain
is handed back through gd; its insertion into _data happens inside
getDomain and is irrelevant to the checked claims, which only read the
returned pair.  A raising DataObject.setValue leaves result False and
the store's own state untouched (partial mutations inside the raising
call are not modelled, as in setGo). -/

/-- _data lookup: self._data[domain]. -/
def sget : List (String × DataObj) → String → Option DataObj
  | [], _ => none
  | (k, o) :: r, key => if k = key then some o else sget r key

/-- Write a domain's DataObject back into _data (Python mutates the
shared object in place). -/
def supdate : List (String × DataObj) → String → DataObj → List (String × DataObj)
  | [], k, o => [(k, o)]
  | (k2, o2) :: r, k, o => if k2 = k then (k2, o) :: r else (k2, o2) :: supdate r k o

/-- Python list.remove(x) guarded by `if x in list`: drop the first
occurrence if present. -/
def removeFirst : List String → String → List String
  | [], _ => []
  | x :: r, y => if x = y then r else x :: removeFirst r y

/-- token[:-3] if token.endswith('.[]') else token. -/
def stripArr (t : String) : String :=
  match t.data.reverse with
  | ']' :: '[' :: '.' :: restRev => ⟨restRev.reverse⟩
  | _ => t

/-- The DataStore flags and domain map (the instance attributes
_writable, _persistent, _synced, _data). -/
structure StoreState where
  writableF : Bool
  persistent : Bool
  synced : Bool
  data : List (String × DataObj)

/-- The writable property: True if self.persistent else self._writable. -/
def StoreState.writable (st : StoreState) : Bool := st.persistent || st.writableF

/-- The abstract collaborators of the store: the model validator
(getValidatedValue: the value, or None on validation failure), the
model default (getDefaultValue), and the backend raw accessors. -/
structure StoreOps where
  validate : String → Val → Val
  getDefault : String → Val
  getRaw : String → String → Except Unit Val
  setRaw : String → String → Val → Except Unit Bool

/-- The shared domain-resolution of setValue/getValue: the fast
_data[domain] pass on a dotted token, falling back to __tokenize
(lines 183-211): reject a blank domain part, else getDomain; an
undotted token goes to __tokenize directly (ValueError) with key
tokens ''. -/
def resolveDomain (st : StoreState) (gd : String → Option DataObj) (token : String) :
    Option (String × DataObj) × String :=
  match pySplitOnce token with
  | (domain, some key) =>
    (match sget st.data domain with
     | some o => (some (domain, o), key)
     | none =>
       if isBlankStr domain then (none, "")
       else
         match gd domain with
         | some o => (some (domain, o), key)
         | none => (none, key))
  | (domain, none) =>
    if isBlankStr domain then (none, "")
    else
      match gd domain with
      | some o => (some (domain, o), "")
      | none => (none, "")

/-- DataStore.setValue: the pre-checks raise (and return False) when
the store is not writable, when a non-None value fails validation, or
when the value is None; then the domain is resolved and written, and a
synced persistent store immediately writes the raw value back,
dropping the raw key from the taint log on success. -/
def pyStoreSetValue (ops : StoreOps) (gd : String → Option DataObj) (st : StoreState)
    (token : String) (value : Val) : StoreState × Bool :=
  if !(StoreState.writable st) then (st, false)
  else if !(value.isNull) && (ops.validate token value).isNull then (st, false)
  else if value.isNull then (st, false)
  else
    match resolveDomain st gd token with
    | (some (dom, o), key) =>
      (match o.setValue key value with
       | .ok (o2, _) =>
         if st.synced && st.persistent then
           (match ops.setRaw dom key value with
            | .ok true =>
              ({ st with data := supdate st.data dom ⟨o2.data, removeFirst o2.changed key, o2.syncing⟩ }, true)
            | .ok false => ({ st with data := supdate st.data dom o2 }, true)
            | .error _ => ({ st with data := supdate st.data dom o2 }, true))
         else ({ st with data := supdate st.data dom o2 }, true)
       | .error _ => (st, false))
    | (none, _) => (st, false)

/-- Python default == token for the stored default against the token
string (true exactly when the default is that same string). -/
def defaultEqTok (default : Val) (t : String) : Bool :=
  match default with
  | Val.s sd => sd == t
  | _ => false

/-- DataStore.getValue: strip a trailing '.[]', resolve the domain,
retrieve from the DataObject (falling back to _getRaw on LookupError,
and to None when that raises too); a non-None retrieved value is
returned through the validator; a None value falls back to the
supplied default: the schema's computed default when default equals
the (stripped) token, the validated default otherwise, and None when
no default was supplied. -/
def pyStoreGetValue (ops : StoreOps) (gd : String → Option DataObj) (st : StoreState)
    (token : String) (default : Val) : Val :=
  let token2 := stripArr token
  let r := resolveDomain st gd token2
  let value : Val :=
    match r.1 with
    | some (dom, o) =>
      (match o.getValue r.2 with
       | .ok v => v
       | .error _ =>
         (match ops.getRaw dom r.2 with
          | .ok v => v
          | .error _ => Val.null))
    | none => Val.null
  if !(value.isNull) then ops.validate token2 value
  else if !(default.isNull) then
    (if defaultEqTok default token2
     then ops.getDefault token2
     else ops.validate token2 default)
  else Val.null

/-! ## Theorems -/

theorem chunkLoop_le (L Cm1 : Nat) (hL : 1 ≤ L) (hLC : L ≤ Cm1 + 1) :
    chunkLoop L Cm1 0 = 1 := by
  unfold chunkLoop
  rw [if_neg (by omega), if_neg (by omega)]
  unfold chunkLoop
  rw [if_pos ⟨hLC, Nat.zero_lt_one⟩]

theorem chunkLoop_gt (L Cm1 : Nat) (hCL : Cm1 + 1 < L) :
    ∀ m k, L - k * (Cm1 + 1) = m → chunkLoop L Cm1 k = (m + (Cm1 + 1) - 1) / (Cm1 + 1) := by
  intro m
  induction m using Nat.strong_induction_on with
  | _ m ih =>
    intro k hk
    unfold chunkLoop
    rw [if_neg (by omega)]
    by_cases hend : L ≤ k * (Cm1 + 1)
    · rw [if_pos hend]
      have hm : m = 0 := by omega
      subst hm
      rw [Nat.div_eq_of_lt (by omega)]
    · rw [if_neg hend]
      have hm1 : 1 ≤ m := by omega
      have hrec : L - (k + 1) * (Cm1 + 1) = m - (Cm1 + 1) := by
        have : (k + 1) * (Cm1 + 1) = k * (Cm1 + 1) + (Cm1 + 1) := by ring
        omega
      have hlt : m - (Cm1 + 1) < m := by omega
      rw [ih (m - (Cm1 + 1)) hlt (k + 1) hrec]
      by_cases hmC : m ≤ Cm1 + 1
      · have h1 : m - (Cm1 + 1) = 0 := by omega
        rw [h1]
        rw [Nat.div_eq_of_lt (by omega)]
        have h2 : m + (Cm1 + 1) - 1 = (Cm1 + 1) * 1 + (m - 1) := by omega
        rw [h2, Nat.mul_add_div (by omega), Nat.div_eq_of_lt (by omega)]
      · have h2 : m - (Cm1 + 1) + (Cm1 + 1) - 1 = m - 1 := by omega
        have h3 : m + (Cm1 + 1) - 1 = (m - 1) + (Cm1 + 1) := by omega
        rw [h2, h3, Nat.add_div_right _ (by omega)]

/-- C9: with chunked framing configured with limit L and chunksize C on
a server connection whose peer keeps sending data (no EOF), the
connection handler performs exactly ceil(L/C) reads on the connection
before closing it. -/
theorem C9_chunked_reads (L C : Nat) (hL : 1 ≤ L) (hC : 1 ≤ C) :
    chunkReads L C = (L + C - 1) / C := by
  have hC0 : C ≠ 0 := by omega
  rw [chunkReads, if_neg hC0]
  have hC1 : C - 1 + 1 = C := by omega
  by_cases hLC : L ≤ C
  · rw [chunkLoop_le L (C - 1) hL (by omega)]
    have h1 : L + C - 1 = C * 1 + (L - 1) := by omega
    rw [h1, Nat.mul_add_div (by omega), Nat.div_eq_of_lt (by omega)]
  · rw [chunkLoop_gt L (C - 1) (by omega) L 0 (by simp), hC1]

theorem C9_witness : 1 ≤ 7 ∧ 1 ≤ 3 ∧ chunkReads 7 3 = (7 + 3 - 1) / 3 :=
  ⟨by decide, by decide, C9_chunked_reads 7 3 (by decide) (by decide)⟩

/-- C6: setting ConnectionPool.max to a value below the current number
of pooled connections fails with freedmConnectionPoolMax; and when the
pool holds max = N connections, the next accepted connection is not
added to the pool but rejected with the reason message
"Too many connections". -/
theorem C6_pool_capacity (p : ConnectionPool) (amount N : Nat) :
    (amount < p.size → p.setMax amount = .error .freedmConnectionPoolMax) ∧
    (p.max = some N → p.size = N → 1 ≤ N →
      onConnectionEstablished p = (p, .rejected "Too many connections")) := by
  constructor
  · intro h
    rw [ConnectionPool.setMax, if_neg (by omega)]
  · intro hmax hsize hN
    have hN0 : ¬ N = 0 := by omega
    have hfull : p.isFull = true := by
      simp [ConnectionPool.isFull, hmax, hsize, hN0]
    rw [onConnectionEstablished, if_pos hfull]

theorem C6_witness :
    ((1 < 2 → ConnectionPool.setMax ⟨2, some 2⟩ 1 = .error .freedmConnectionPoolMax) ∧
      ((⟨2, some 2⟩ : ConnectionPool).max = some 2 → (2 : Nat) = 2 → 1 ≤ 2 →
        onConnectionEstablished ⟨2, some 2⟩ =
          (⟨2, some 2⟩, .rejected "Too many connections"))) ∧
    ConnectionPool.setMax ⟨2, some 2⟩ 1 = .error .freedmConnectionPoolMax ∧
    onConnectionEstablished ⟨2, some 2⟩ =
      (⟨2, some 2⟩, .rejected "Too many connections") := by
  refine ⟨C6_pool_capacity ⟨2, some 2⟩ 1 2, ?_, ?_⟩
  · exact (C6_pool_capacity ⟨2, some 2⟩ 1 2).1 (by decide)
  · exact (C6_pool_capacity ⟨2, some 2⟩ 1 2).2 (by decide) (by decide) (by decide)

theorem chStarts_iff (a : List Char) : ∀ b, chStarts a b = true ↔ ∃ v, b = a ++ v := by
  induction a with
  | nil => intro b; simp [chStarts]
  | cons c cs ih =>
    intro b
    cases b with
    | nil => simp [chStarts]
    | cons d ds =>
      simp only [chStarts, Bool.and_eq_true, beq_iff_eq, ih, List.cons_append,
        List.cons.injEq]
      constructor
      · rintro ⟨rfl, v, rfl⟩
        exact ⟨v, rfl, rfl⟩
      · rintro ⟨v, rfl, rfl⟩
        exact ⟨rfl, v, rfl⟩

theorem chSub_iff (a : List Char) : ∀ b, chSub a b = true ↔ ∃ u v, b = u ++ a ++ v := by
  intro b
  induction b with
  | nil =>
    simp only [chSub, chStarts_iff]
    constructor
    · rintro ⟨v, hv⟩
      exact ⟨[], v, hv⟩
    · rintro ⟨u, v, huv⟩
      refine ⟨v, ?_⟩
      have hu : u = [] := by
        cases u with
        | nil => rfl
        | cons x xs => simp at huv
      subst hu
      simpa using huv
  | cons d ds ih =>
    simp only [chSub, Bool.or_eq_true, chStarts_iff, ih]
    constructor
    · rintro (⟨v, hv⟩ | ⟨u, v, huv⟩)
      · exact ⟨[], v, by simpa using hv⟩
      · exact ⟨d :: u, v, by simp [huv]⟩
    · rintro ⟨u, v, huv⟩
      cases u with
      | nil =>
        left
        exact ⟨v, by simpa using huv⟩
      | cons x xs =>
        right
        simp only [List.cons_append, List.cons.injEq] at huv
        exact ⟨xs, v, huv.2⟩

theorem isSubstr_refl (s : String) : isSubstr s s = true := by
  rw [isSubstr, chSub_iff]
  exact ⟨[], [], by simp⟩

theorem isSubstr_trans {a b c : String} (h1 : isSubstr a b = true)
    (h2 : isSubstr b c = true) : isSubstr a c = true := by
  rw [isSubstr, chSub_iff] at h1 h2 ⊢
  obtain ⟨u1, v1, h1⟩ := h1
  obtain ⟨u2, v2, h2⟩ := h2
  refine ⟨u2 ++ u1, v1 ++ v2, ?_⟩
  rw [h2, h1]
  simp

theorem mem_insertSorted (x y : String) : ∀ l, x ∈ insertSorted y l ↔ x = y ∨ x ∈ l := by
  intro l
  induction l with
  | nil => simp [insertSorted]
  | cons z zs ih =>
    rw [insertSorted]
    by_cases h : strLtb z y = true
    · rw [if_pos h]
      simp only [List.mem_cons, ih]
      tauto
    · rw [if_neg h]
      simp [List.mem_cons]

theorem mem_pySort (x : String) : ∀ l, x ∈ pySort l ↔ x ∈ l := by
  intro l
  induction l with
  | nil => simp [pySort]
  | cons y ys ih =>
    show x ∈ insertSorted y (pySort ys) ↔ _
    rw [mem_insertSorted]
    simp [ih]

theorem reduceAux_mem_acc (x : String) :
    ∀ ts prev lk acc, x ∈ acc → x ∈ reduceAux prev lk acc ts := by
  intro ts
  induction ts with
  | nil =>
    intro prev lk acc h
    simpa [reduceAux] using h
  | cons t ts ih =>
    intro prev lk acc h
    rw [reduceAux]
    by_cases h1 : isSubstr prev t = true
    · rw [if_pos h1]; exact ih t lk acc h
    · rw [if_neg h1]
      by_cases h2 : isSubstr lk t = true
      · rw [if_pos h2]; exact ih t lk acc h
      · rw [if_neg h2]; exact ih t t (t :: acc) (List.mem_cons_of_mem t h)

theorem reduceAux_sound (x : String) :
    ∀ ts prev lk acc, x ∈ reduceAux prev lk acc ts → x ∈ acc ∨ x ∈ ts := by
  intro ts
  induction ts with
  | nil =>
    intro prev lk acc h
    left
    simpa [reduceAux] using h
  | cons t ts ih =>
    intro prev lk acc h
    rw [reduceAux] at h
    by_cases h1 : isSubstr prev t = true
    · rw [if_pos h1] at h
      rcases ih t lk acc h with h' | h'
      · exact Or.inl h'
      · exact Or.inr (List.mem_cons_of_mem t h')
    · rw [if_neg h1] at h
      by_cases h2 : isSubstr lk t = true
      · rw [if_pos h2] at h
        rcases ih t lk acc h with h' | h'
        · exact Or.inl h'
        · exact Or.inr (List.mem_cons_of_mem t h')
      · rw [if_neg h2] at h
        rcases ih t t (t :: acc) h with h' | h'
        · rcases List.mem_cons.mp h' with h'' | h''
          · exact Or.inr (h'' ▸ List.mem_cons_self t ts)
          · exact Or.inl h''
        · exact Or.inr (List.mem_cons_of_mem t h')

theorem reduceAux_cover :
    ∀ ts prev lk acc, (∃ u ∈ acc, isSubstr u prev = true) → lk ∈ acc →
      ∀ t ∈ ts, ∃ u ∈ reduceAux prev lk acc ts, isSubstr u t = true := by
  intro ts
  induction ts with
  | nil =>
    intro prev lk acc _ _ t ht
    exact absurd ht (List.not_mem_nil t)
  | cons t ts ih =>
    intro prev lk acc hprev hlk t' ht'
    obtain ⟨u, hu, hus⟩ := hprev
    rw [reduceAux]
    by_cases h1 : isSubstr prev t = true
    · rw [if_pos h1]
      rcases List.mem_cons.mp ht' with rfl | h'
      · exact ⟨u, reduceAux_mem_acc u ts t' lk acc hu, isSubstr_trans hus h1⟩
      · exact ih t lk acc ⟨u, hu, isSubstr_trans hus h1⟩ hlk t' h'
    · rw [if_neg h1]
      by_cases h2 : isSubstr lk t = true
      · rw [if_pos h2]
        rcases List.mem_cons.mp ht' with rfl | h'
        · exact ⟨lk, reduceAux_mem_acc lk ts t' lk acc hlk, h2⟩
        · exact ih t lk acc ⟨lk, hlk, h2⟩ hlk t' h'
      · rw [if_neg h2]
        rcases List.mem_cons.mp ht' with rfl | h'
        · exact ⟨t', reduceAux_mem_acc t' ts t' t' (t' :: acc) (List.mem_cons_self t' acc),
            isSubstr_refl t'⟩
        · exact ih t t (t :: acc)
            ⟨t, List.mem_cons_self t acc, isSubstr_refl t⟩ (List.mem_cons_self t acc) t' h'

/-- C2: corrected form.  getTainted returns the sorted token list from
which a token is removed exactly when the immediately preceding sorted
token, or the most recently kept token, occurs in it as a substring
(not only as a strict prefix).  In particular from {"a", "a.b"} it
returns ["a"], from {"a.1", "a.2"} it returns both tokens, every
returned token was in the log, and every logged token has some returned
token as a substring. -/
theorem C2_taint_reduction :
    pyGetTainted ["a", "a.b"] = ["a"] ∧
    pyGetTainted ["a.1", "a.2"] = ["a.1", "a.2"] ∧
    (∀ l : List String, "" ∉ l →
      (∀ t ∈ pyGetTainted l, t ∈ l) ∧
      (∀ t ∈ l, ∃ u ∈ pyGetTainted l, isSubstr u t = true)) := by
  refine ⟨by decide, by decide, ?_⟩
  intro l hl
  have hcont : l.contains "" = false := by
    rw [List.contains_eq_any_beq]
    simp only [List.any_eq_false, beq_iff_eq]
    intro t ht heq
    exact hl (heq ▸ ht)
  rw [pyGetTainted, hcont]
  simp only [Bool.false_eq_true, if_false]
  cases hs : pySort l with
  | nil =>
    constructor
    · intro t ht
      exact absurd ht (List.not_mem_nil t)
    · intro t ht
      have : t ∈ pySort l := (mem_pySort t l).mpr ht
      rw [hs] at this
      exact absurd this (List.not_mem_nil t)
  | cons t ts =>
    constructor
    · intro x hx
      rcases reduceAux_sound x ts t t [t] hx with h' | h'
      · have : x = t := by simpa using h'
        subst this
        have : x ∈ pySort l := by rw [hs]; exact List.mem_cons_self x ts
        exact (mem_pySort x l).mp this
      · have : x ∈ pySort l := by rw [hs]; exact List.mem_cons_of_mem t h'
        exact (mem_pySort x l).mp this
    · intro x hx
      have hx' : x ∈ pySort l := (mem_pySort x l).mpr hx
      rw [hs] at hx'
      rcases List.mem_cons.mp hx' with rfl | h'
      · exact ⟨x, reduceAux_mem_acc x ts x x [x] (List.mem_cons_self x []),
          isSubstr_refl x⟩
      · exact reduceAux_cover ts t t [t]
          ⟨t, List.mem_cons_self t [], isSubstr_refl t⟩ (List.mem_cons_self t []) x h'

theorem C2_witness :
    ((∀ t ∈ pyGetTainted ["b", "ab"], t ∈ (["b", "ab"] : List String)) ∧
      (∀ t ∈ (["b", "ab"] : List String), ∃ u ∈ pyGetTainted ["b", "ab"],
        isSubstr u t = true)) :=
  (C2_taint_reduction.2.2 ["b", "ab"] (by decide))

/-- C2: counterexample to the claim as stated.  From the log
{"b", "c.b"} the code returns ["b"]: the token "c.b" is removed because
"b" occurs in it as a substring, although "b" is not a strict prefix of
"c.b" (nor conversely), so removal is not restricted to strict-prefix
relationships. -/
theorem C2_counterexample :
    pyGetTainted ["b", "c.b"] = ["b"] ∧
    pyGetTainted ["b", "c.b"] ≠ ["b", "c.b"] ∧
    chStarts "b".data "c.b".data = false ∧
    chStarts "c.b".data "b".data = false := by
  refine ⟨by decide, ?_, by decide, by decide⟩
  intro h
  have : pyGetTainted ["b", "c.b"] = ["b"] := by decide
  rw [this] at h
  exact absurd h (by decide)

theorem natToStrAux_fuel : ∀ n f, n + 1 ≤ f → natToStrAux f n = natToStrAux (n + 1) n := by
  intro n
  induction n using Nat.strong_induction_on with
  | _ n ih =>
    intro f hf
    obtain ⟨f', rfl⟩ : ∃ f', f = f' + 1 := ⟨f - 1, by omega⟩
    rw [natToStrAux, natToStrAux]
    by_cases h10 : n < 10
    · simp [h10]
    · simp only [h10, if_false]
      congr 1
      have hlt : n / 10 < n := Nat.div_lt_self (by omega) (by omega)
      rw [ih (n / 10) hlt f' (by omega), ih (n / 10) hlt n (by omega)]

theorem digitChar10_toNat (d : Nat) (h : d < 10) : (digitChar10 d).toNat = 48 + d := by
  interval_cases d <;> decide

theorem digitChar10_isDigit (d : Nat) (h : d < 10) : (digitChar10 d).isDigit = true := by
  interval_cases d <;> decide

theorem strToNat_natToStr (n : Nat) : strToNat (natToStr n) = n := by
  induction n using Nat.strong_induction_on with
  | _ n ih =>
    show List.foldl (fun a c => a * 10 + (c.toNat - 48)) 0 (natToStrAux (n + 1) n) = n
    rw [natToStrAux]
    by_cases h10 : n < 10
    · simp [h10, digitChar10_toNat n h10]
    · simp only [h10, if_false]
      have hlt : n / 10 < n := Nat.div_lt_self (by omega) (by omega)
      rw [natToStrAux_fuel (n / 10) n (by omega), List.foldl_append]
      have hd : List.foldl (fun a c => a * 10 + (c.toNat - 48)) 0
          (natToStrAux (n / 10 + 1) (n / 10)) = n / 10 := ih (n / 10) hlt
      rw [hd]
      simp [digitChar10_toNat (n % 10) (by omega)]
      omega

theorem natToStrAux_digits (n : Nat) :
    natToStrAux (n + 1) n ≠ [] ∧ ∀ c ∈ natToStrAux (n + 1) n, c.isDigit = true := by
  induction n using Nat.strong_induction_on with
  | _ n ih =>
    rw [natToStrAux]
    by_cases h10 : n < 10
    · simp only [h10, if_true]
      exact ⟨by simp, by simpa using digitChar10_isDigit n h10⟩
    · simp only [h10, if_false]
      have hlt : n / 10 < n := Nat.div_lt_self (by omega) (by omega)
      rw [natToStrAux_fuel (n / 10) n (by omega)]
      obtain ⟨h1, h2⟩ := ih (n / 10) hlt
      refine ⟨by simp, ?_⟩
      intro c hc
      rcases List.mem_append.mp hc with h' | h'
      · exact h2 c h'
      · have : c = digitChar10 (n % 10) := by simpa using h'
        exact this ▸ digitChar10_isDigit (n % 10) (by omega)

theorem isDigitStr_natToStr (n : Nat) : isDigitStr (natToStr n) = true := by
  obtain ⟨h1, h2⟩ := natToStrAux_digits n
  show (!(natToStrAux (n + 1) n).isEmpty &&
    (natToStrAux (n + 1) n).all (fun c => c.isDigit)) = true
  rw [Bool.and_eq_true, List.all_eq_true]
  constructor
  · cases h : natToStrAux (n + 1) n with
    | nil => exact absurd h h1
    | cons c cs => simp
  · exact h2

theorem natToStr_inj {a b : Nat} (h : natToStr a = natToStr b) : a = b := by
  have := strToNat_natToStr a
  rw [h, strToNat_natToStr b] at this
  omega

theorem dget_dset_self (d : List (String × Val)) (k : String) (v : Val) :
    dget (dset d k v) k = some v := by
  induction d with
  | nil => simp [dset, dget]
  | cons p r ih =>
    obtain ⟨k', w⟩ := p
    rw [dset]
    by_cases h : k' = k
    · rw [if_pos h, dget, if_pos h]
    · rw [if_neg h, dget, if_neg h]
      exact ih

theorem lget_set : ∀ (l : List Val) (k : Nat) (v : Val), k < l.length →
    (l.set k v).get? k = some v := by
  intro l
  induction l with
  | nil => intro k v h; simp at h
  | cons x xs ih =>
    intro k v h
    cases k with
    | zero => rfl
    | succ k =>
      show (xs.set k v).get? k = some v
      exact ih k v (by simpa using h)

theorem pad_lt (xs : List Val) (k : Nat) : k < (pad xs k).length := by
  rw [pad]
  by_cases h : xs.length ≤ k
  · rw [if_pos h]
    simp only [List.length_append, List.length_replicate]
    omega
  · rw [if_neg h]
    omega

theorem lget_concat (l : List Val) (v : Val) : (l ++ [v]).get? l.length = some v := by
  induction l with
  | nil => rfl
  | cons x xs ih => simp [ih]

theorem lgetLast_concat (l : List Val) (v : Val) : (l ++ [v]).getLast? = some v := by
  rw [List.getLast?_concat]

theorem mem_setTainted (o : DataObj) (t : String) : t ∈ (o.setTainted t).changed := by
  rw [DataObj.setTainted]
  by_cases h : t ∈ o.changed
  · rw [if_pos h]; exact h
  · rw [if_neg h]; simp


theorem dget_cons_self (k : String) (v : Val) (r : List (String × Val)) :
    dget ((k, v) :: r) k = some v := by
  simp [dget]

theorem canSet_eq_nil (data : Val) (v : Val) : canSet data [] v = false := rfl

theorem canSet_eq_list (key : String) (rest : List String) (xs : List Val) (v : Val) :
    canSet (.list xs) (key :: rest) v =
      (if isDigitStr key then
        (match rest with
         | [] => !(((pad xs (strToNat key)).getD (strToNat key) Val.null).isList && v.isDict)
         | _ :: _ => canSet (if ((pad xs (strToNat key)).getD (strToNat key) Val.null).isList
                       then (pad xs (strToNat key)).getD (strToNat key) Val.null
                       else Val.dict []) rest v)
      else if key = "[]" then
        (match rest with
         | [] => true
         | [k2] => !(isDigitStr k2) && !(k2 = "[]") && !(k2 = "+") && !(k2 = "")
         | _ => false)
      else if !(key = "+") && !(key = "") then false
      else false) := rfl

theorem canSet_eq_dict (key : String) (rest : List String) (d : List (String × Val)) (v : Val) :
    canSet (.dict d) (key :: rest) v =
      (if isDigitStr key then
        (match rest with
         | [] => true
         | _ :: _ => canSet (Val.dict []) rest v)
      else if key = "[]" then
        (match rest with
         | [] => true
         | _ :: _ => canSet (Val.dict []) rest v)
      else if !(key = "+") && !(key = "") then
        (match rest with
         | [] => true
         | nxt :: _ =>
          canSet (if isDigitStr nxt || nxt = "[]"
            then (match dget d key with
                  | none => Val.dict []
                  | some .null => Val.dict []
                  | some c => c)
            else (match dget d key with
                  | some (.dict cd) => Val.dict cd
                  | _ => Val.dict [])) rest v)
      else false) := rfl

theorem canSet_eq_null (key : String) (rest : List String) (v : Val) :
    canSet .null (key :: rest) v = false := by
  show (if isDigitStr key then false
        else if key = "[]" then false
        else if !(key = "+") && !(key = "") then false
        else false) = false
  split
  · rfl
  · split
    · rfl
    · split <;> rfl

theorem canSet_eq_b (key : String) (rest : List String) (x : Bool) (v : Val) :
    canSet (.b x) (key :: rest) v = false := by
  show (if isDigitStr key then false
        else if key = "[]" then false
        else if !(key = "+") && !(key = "") then false
        else false) = false
  split
  · rfl
  · split
    · rfl
    · split <;> rfl

theorem canSet_eq_i (key : String) (rest : List String) (x : Int) (v : Val) :
    canSet (.i x) (key :: rest) v = false := by
  show (if isDigitStr key then false
        else if key = "[]" then false
        else if !(key = "+") && !(key = "") then false
        else false) = false
  split
  · rfl
  · split
    · rfl
    · split <;> rfl

theorem canSet_eq_s (key : String) (rest : List String) (x : String) (v : Val) :
    canSet (.s x) (key :: rest) v = false := by
  show (if isDigitStr key then false
        else if key = "[]" then false
        else if !(key = "+") && !(key = "") then false
        else false) = false
  split
  · rfl
  · split
    · rfl
    · split <;> rfl

theorem setGo_eq_nil (data : Val) (value : Val) : setGo data [] value = .ok (data, []) := rfl

theorem setGo_eq_list_last (key : String) (xs : List Val) (value : Val) :
    setGo (.list xs) [key] value =
      (if isDigitStr key || key = "[]" then
        (if key = "[]" then .ok (.list (xs ++ [value]), [natToStr xs.length])
         else
           .ok (.list (if !(((pad xs (strToNat key)).getD (strToNat key) Val.null).isList && value.isDict)
                       then (pad xs (strToNat key)).set (strToNat key) value
                       else pad xs (strToNat key)), [key]))
      else if (true && decide (key = "")) = true then
        Except.error ()
      else
        (match xs.getLast? with
         | some (.dict ld) => .ok (.list (xs.dropLast ++ [Val.dict (dset ld key value)]), [key])
         | some _ => .error ()
         | none => .error ())) := rfl

theorem setGo_eq_list_cons (key nxt : String) (rest2 : List String) (xs : List Val) (value : Val) :
    setGo (.list xs) (key :: nxt :: rest2) value =
      (if isDigitStr key || key = "[]" then
        (if key = "[]" then
          (match setGo (.list (xs ++ [Val.dict []])) (nxt :: rest2) value with
           | .ok (d', tok) => .ok (d', natToStr xs.length :: tok)
           | .error e => .error e)
         else
          (match setGo (if !(((pad xs (strToNat key)).getD (strToNat key) Val.null).isList && (Val.dict []).isDict)
                        then Val.dict []
                        else (pad xs (strToNat key)).getD (strToNat key) Val.null) (nxt :: rest2) value with
           | .ok (c', tok) =>
             .ok (.list ((if !(((pad xs (strToNat key)).getD (strToNat key) Val.null).isList && (Val.dict []).isDict)
                          then (pad xs (strToNat key)).set (strToNat key) (Val.dict [])
                          else pad xs (strToNat key)).set (strToNat key) c'), key :: tok)
           | .error e => .error e))
      else if (false && decide (key = "")) = true then
        Except.error ()
      else
        Except.error ()) := rfl

theorem setGo_eq_dict_last (key : String) (d : List (String × Val)) (value : Val) :
    setGo (.dict d) [key] value =
      (if isDigitStr key || key = "[]" then
        .ok (.dict (dset d (if key = "[]" then
              (if !d.isEmpty && d.all (fun p => isDigitStr p.1)
               then natToStr (maxIntKey d + 1) else "0") else key) value),
          [if key = "[]" then
              (if !d.isEmpty && d.all (fun p => isDigitStr p.1)
               then natToStr (maxIntKey d + 1) else "0") else key])
      else if (true && decide (key = "")) = true then
        (match value with
         | .dict vd => .ok (.dict (vd.foldl (fun acc p => dset acc p.1 p.2) d), [])
         | _ => .error ())
      else
        .ok (.dict (dset d key value), [key])) := rfl

theorem setGo_eq_dict_cons (key nxt : String) (rest2 : List String) (d : List (String × Val)) (value : Val) :
    setGo (.dict d) (key :: nxt :: rest2) value =
      (if isDigitStr key || key = "[]" then
        (match setGo (Val.dict []) (nxt :: rest2) value with
         | .ok (c', tok) =>
           .ok (.dict (dset (dset d (if key = "[]" then
                  (if !d.isEmpty && d.all (fun p => isDigitStr p.1)
                   then natToStr (maxIntKey d + 1) else "0") else key) (Val.dict []))
              (if key = "[]" then
                  (if !d.isEmpty && d.all (fun p => isDigitStr p.1)
                   then natToStr (maxIntKey d + 1) else "0") else key) c'),
             (if key = "[]" then
                  (if !d.isEmpty && d.all (fun p => isDigitStr p.1)
                   then natToStr (maxIntKey d + 1) else "0") else key) :: tok)
         | .error e => .error e)
      else if (false && decide (key = "")) = true then
        (match value with
         | .dict vd => .ok (.dict (vd.foldl (fun acc p => dset acc p.1 p.2) d), [])
         | _ => .error ())
      else
        (match setGo (if (if isDigitStr nxt || nxt = "[]"
                       then (match dget d key with
                             | none => false
                             | some .null => false
                             | some _ => true)
                       else (match dget d key with
                             | some (.dict _) => true
                             | _ => false))
                      then (dget d key).getD Val.null
                      else Val.dict []) (nxt :: rest2) value with
         | .ok (c', tok) =>
           .ok (.dict (dset (if (if isDigitStr nxt || nxt = "[]"
                       then (match dget d key with
                             | none => false
                             | some .null => false
                             | some _ => true)
                       else (match dget d key with
                             | some (.dict _) => true
                             | _ => false))
                      then d else dset d key (Val.dict [])) key c'), key :: tok)
         | .error e => .error e)) := rfl

theorem getGo_eq_nil (self : Val) (prev : Option String) (data : Val) :
    getGo self prev data [] = .ok data := rfl

theorem getGo_eq_list (self : Val) (prev : Option String) (xs : List Val)
    (key : String) (rest : List String) :
    getGo self prev (.list xs) (key :: rest) =
      (if isDigitStr key then
        (match xs.get? (strToNat key) with
         | some v => getGo self (some key) v rest
         | none => .error ())
      else if key = "[]" then getGo self (some key) (.list xs) rest
      else if key = "+" then
        (if prev = some "+" || prev = some "[]" then
          (match xs.mapM (fun e =>
              match e with
              | Val.dict ((k2, v2) :: _) =>
                (match getGo self none v2 rest with
                 | .ok r => some (Val.dict [(k2, r)])
                 | .error _ => none)
              | _ => none) with
          | some items => .ok (.list items)
          | none => getGo self (some key) (.list xs) rest)
        else
          (match rest with
           | nxt :: _ =>
             (if isDigitStr nxt then
               (match xs.mapM (fun e =>
                   match getGo self none e rest with
                   | .ok r => some r
                   | .error _ => none) with
               | some items => .ok (.list items)
               | none => getGo self (some key) (.list xs) rest)
             else getGo self (some key) (.list xs) rest)
           | [] => getGo self (some key) (.list xs) rest))
      else
        (if (xs.filterMap (fun v =>
              match v with
              | .dict vd => dget vd key
              | _ => none)).isEmpty then .error ()
         else getGo self (some key) (.list (xs.filterMap (fun v =>
              match v with
              | .dict vd => dget vd key
              | _ => none))) rest)) := rfl

theorem getGo_eq_dict (self : Val) (prev : Option String) (d : List (String × Val))
    (key : String) (rest : List String) :
    getGo self prev (.dict d) (key :: rest) =
      (if isDigitStr key then
        (match dget d key with
         | some v => getGo self (some key) v rest
         | none => .error ())
      else if key = "[]" then
        (if !d.isEmpty && d.all (fun p => isDigitStr p.1) then
          getGo self (some key) (.list (d.map (fun p => p.2))) rest
        else .error ())
      else if key = "+" then
        getGo self (some key)
          (.list (d.map (fun p => if isDigitStr p.1 then p.2 else Val.dict [p]))) rest
      else
        (match dget d key with
         | some v => getGo self (some key) v rest
         | none => .error ())) := rfl

theorem ldropLast_concat (l : List Val) (v : Val) : (l ++ [v]).dropLast = l := by
  simp

theorem setGo_roundTrip (v : Val) :
    ∀ keys data, canSet data keys v = true →
      ∃ d' canon, setGo data keys v = .ok (d', canon) ∧
        ∀ self prev, getGo self prev d' canon = .ok v := by
  intro keys
  induction keys with
  | nil =>
    intro data h
    rw [canSet_eq_nil] at h
    exact absurd h (by decide)
  | cons key rest ih =>
    intro data h
    by_cases hdig : isDigitStr key = true
    · -- numeric segment
      have hkb : ¬(key = "[]") := fun he => by
        rw [he] at hdig; exact absurd hdig (by decide)
      have hor : (isDigitStr key || decide (key = "[]")) = true := by simp [hdig]
      cases data with
      | list xs =>
        rw [canSet_eq_list, if_pos hdig] at h
        cases rest with
        | nil =>
          have hW : (!(((pad xs (strToNat key)).getD (strToNat key) Val.null).isList
            && v.isDict)) = true := h
          refine ⟨.list ((pad xs (strToNat key)).set (strToNat key) v), [key], ?_, ?_⟩
          · rw [setGo_eq_list_last, if_pos hor, if_neg hkb, if_pos hW]
          · intro self prev
            rw [getGo_eq_list, if_pos hdig, lget_set _ _ _ (pad_lt xs (strToNat key))]
            rfl
        | cons nxt rest2 =>
          have hcs : canSet (if ((pad xs (strToNat key)).getD (strToNat key) Val.null).isList
              then (pad xs (strToNat key)).getD (strToNat key) Val.null
              else Val.dict []) (nxt :: rest2) v = true := h
          obtain ⟨c', tok, hset, hget⟩ := ih _ hcs
          by_cases hel : ((pad xs (strToNat key)).getD (strToNat key) Val.null).isList = true
          · rw [if_pos hel] at hset
            refine ⟨.list ((pad xs (strToNat key)).set (strToNat key) c'), key :: tok, ?_, ?_⟩
            · rw [setGo_eq_list_cons, if_pos hor, if_neg hkb]
              simp only [hel, Val.isDict, Bool.and_true, Bool.not_true, Bool.false_eq_true,
                if_false]
              rw [hset]
            · intro self prev
              rw [getGo_eq_list, if_pos hdig, lget_set _ _ _ (pad_lt xs (strToNat key))]
              exact hget self (some key)
          · rw [if_neg hel] at hset
            refine ⟨.list (((pad xs (strToNat key)).set (strToNat key)
              (Val.dict [])).set (strToNat key) c'), key :: tok, ?_, ?_⟩
            · rw [setGo_eq_list_cons, if_pos hor, if_neg hkb]
              have hel' : ((pad xs (strToNat key)).getD (strToNat key) Val.null).isList = false := by
                revert hel
                cases ((pad xs (strToNat key)).getD (strToNat key) Val.null).isList <;> simp
              simp only [hel', Val.isDict, Bool.and_true, Bool.not_false, Bool.false_and,
                if_true]
              rw [hset]
            · intro self prev
              have hlen : strToNat key < ((pad xs (strToNat key)).set (strToNat key)
                  (Val.dict [])).length := by
                rw [List.length_set]
                exact pad_lt xs (strToNat key)
              rw [getGo_eq_list, if_pos hdig, lget_set _ _ _ hlen]
              exact hget self (some key)
      | dict d =>
        rw [canSet_eq_dict, if_pos hdig] at h
        cases rest with
        | nil =>
          refine ⟨.dict (dset d key v), [key], ?_, ?_⟩
          · rw [setGo_eq_dict_last, if_pos hor]
            simp only [if_neg hkb]
          · intro self prev
            rw [getGo_eq_dict, if_pos hdig, dget_dset_self]
            rfl
        | cons nxt rest2 =>
          have hcs : canSet (Val.dict []) (nxt :: rest2) v = true := h
          obtain ⟨c', tok, hset, hget⟩ := ih _ hcs
          refine ⟨.dict (dset (dset d key (Val.dict [])) key c'), key :: tok, ?_, ?_⟩
          · rw [setGo_eq_dict_cons, if_pos hor]
            simp only [if_neg hkb]
            rw [hset]
          · intro self prev
            rw [getGo_eq_dict, if_pos hdig, dget_dset_self]
            exact hget self (some key)
      | null => rw [canSet_eq_null] at h; exact absurd h (by decide)
      | b x => rw [canSet_eq_b] at h; exact absurd h (by decide)
      | i x => rw [canSet_eq_i] at h; exact absurd h (by decide)
      | s x => rw [canSet_eq_s] at h; exact absurd h (by decide)
    · by_cases hbk : key = "[]"
      · subst hbk
        have hor : (isDigitStr "[]" || decide ("[]" = "[]")) = true := by decide
        cases data with
        | list xs =>
          rw [canSet_eq_list, if_neg (by decide), if_pos rfl] at h
          cases rest with
          | nil =>
            refine ⟨.list (xs ++ [v]), [natToStr xs.length], ?_, ?_⟩
            · rw [setGo_eq_list_last, if_pos hor, if_pos rfl]
            · intro self prev
              rw [getGo_eq_list, if_pos (isDigitStr_natToStr xs.length),
                strToNat_natToStr, lget_concat]
              rfl
          | cons k2 rest2 =>
            cases rest2 with
            | nil =>
              have hx : (!(isDigitStr k2) && !(decide (k2 = "[]")) && !(decide (k2 = "+"))
                  && !(decide (k2 = ""))) = true := h
              simp only [Bool.and_eq_true, Bool.not_eq_true', decide_eq_false_iff_not] at hx
              obtain ⟨⟨⟨h1, h2⟩, h3⟩, h4⟩ := hx
              refine ⟨.list (xs ++ [Val.dict [(k2, v)]]), [natToStr xs.length, k2], ?_, ?_⟩
              · rw [setGo_eq_list_cons, if_pos hor, if_pos rfl, setGo_eq_list_last,
                  if_neg (by simp [h1, h2]), if_neg (by simp [h4]), lgetLast_concat,
                  ldropLast_concat]
                rfl
              · intro self prev
                rw [getGo_eq_list, if_pos (isDigitStr_natToStr xs.length),
                  strToNat_natToStr, lget_concat]
                show getGo self (some (natToStr xs.length)) (.dict [(k2, v)]) [k2] = .ok v
                rw [getGo_eq_dict, if_neg (by simp [h1]), if_neg h2, if_neg h3,
                  dget_cons_self]
                rfl
            | cons k3 rest3 =>
              have h' : false = true := h
              exact absurd h' (by decide)
        | dict d =>
          rw [canSet_eq_dict, if_neg (by decide), if_pos rfl] at h
          have hK : isDigitStr (if !d.isEmpty && d.all (fun p => isDigitStr p.1)
              then natToStr (maxIntKey d + 1) else "0") = true := by
            by_cases hc : (!d.isEmpty && d.all (fun p => isDigitStr p.1)) = true
            · rw [if_pos hc]; exact isDigitStr_natToStr _
            · rw [if_neg hc]; decide
          cases rest with
          | nil =>
            refine ⟨.dict (dset d (if !d.isEmpty && d.all (fun p => isDigitStr p.1)
              then natToStr (maxIntKey d + 1) else "0") v),
              [if !d.isEmpty && d.all (fun p => isDigitStr p.1)
               then natToStr (maxIntKey d + 1) else "0"], ?_, ?_⟩
            · rw [setGo_eq_dict_last, if_pos hor]
              rfl
            · intro self prev
              rw [getGo_eq_dict, if_pos hK, dget_dset_self]
              rfl
          | cons nxt rest2 =>
            have hcs : canSet (Val.dict []) (nxt :: rest2) v = true := h
            obtain ⟨c', tok, hset, hget⟩ := ih _ hcs
            refine ⟨.dict (dset (dset d (if !d.isEmpty && d.all (fun p => isDigitStr p.1)
              then natToStr (maxIntKey d + 1) else "0") (Val.dict []))
              (if !d.isEmpty && d.all (fun p => isDigitStr p.1)
               then natToStr (maxIntKey d + 1) else "0") c'),
              (if !d.isEmpty && d.all (fun p => isDigitStr p.1)
               then natToStr (maxIntKey d + 1) else "0") :: tok, ?_, ?_⟩
            · rw [setGo_eq_dict_cons, if_pos hor, hset]
              rfl
            · intro self prev
              rw [getGo_eq_dict, if_pos hK, dget_dset_self]
              exact hget self _
        | null => rw [canSet_eq_null] at h; exact absurd h (by decide)
        | b x => rw [canSet_eq_b] at h; exact absurd h (by decide)
        | i x => rw [canSet_eq_i] at h; exact absurd h (by decide)
        | s x => rw [canSet_eq_s] at h; exact absurd h (by decide)
      · -- identifier (or '+' or '', which canSet rejects)
        cases data with
        | dict d =>
          rw [canSet_eq_dict, if_neg (by simp [hdig]), if_neg hbk] at h
          by_cases hpe : (!(decide (key = "+")) && !(decide (key = ""))) = true
          · rw [if_pos hpe] at h
            simp only [Bool.and_eq_true, Bool.not_eq_true', decide_eq_false_iff_not] at hpe
            obtain ⟨hpl, hemp⟩ := hpe
            cases rest with
            | nil =>
              refine ⟨.dict (dset d key v), [key], ?_, ?_⟩
              · rw [setGo_eq_dict_last, if_neg (by simp [hdig, hbk]),
                  if_neg (by simp [hemp])]
              · intro self prev
                rw [getGo_eq_dict, if_neg (by simp [hdig]), if_neg hbk, if_neg hpl,
                  dget_dset_self]
                rfl
            | cons nxt rest2 =>
              obtain ⟨c', tok, hset, hget⟩ := ih _ h
              by_cases hla : (isDigitStr nxt || decide (nxt = "[]")) = true
              · rcases hcur : dget d key with _ | c
                · rw [hcur, if_pos hla] at hset
                  have hset' : setGo (Val.dict []) (nxt :: rest2) v = Except.ok (c', tok) := hset
                  refine ⟨.dict (dset (dset d key (Val.dict [])) key c'), key :: tok, ?_, ?_⟩
                  · rw [setGo_eq_dict_cons, if_neg (by simp [hdig, hbk]),
                      if_neg (by simp [hemp])]
                    simp only [hcur, if_pos hla]
                    show (match setGo (Val.dict []) (nxt :: rest2) v with
                          | Except.ok (c', tok) =>
                            Except.ok (Val.dict (dset (dset d key (Val.dict [])) key c'), key :: tok)
                          | Except.error e => Except.error e) =
                      Except.ok (Val.dict (dset (dset d key (Val.dict [])) key c'), key :: tok)
                    rw [hset']
                  · intro self prev
                    rw [getGo_eq_dict, if_neg (by simp [hdig]), if_neg hbk, if_neg hpl,
                      dget_dset_self]
                    exact hget self _
                · rw [hcur, if_pos hla] at hset
                  cases c with
                  | null =>
                    have hset' : setGo (Val.dict []) (nxt :: rest2) v = Except.ok (c', tok) := hset
                    refine ⟨.dict (dset (dset d key (Val.dict [])) key c'), key :: tok, ?_, ?_⟩
                    · rw [setGo_eq_dict_cons, if_neg (by simp [hdig, hbk]),
                        if_neg (by simp [hemp])]
                      simp only [hcur, if_pos hla]
                      show (match setGo (Val.dict []) (nxt :: rest2) v with
                            | Except.ok (c', tok) =>
                              Except.ok (Val.dict (dset (dset d key (Val.dict [])) key c'), key :: tok)
                            | Except.error e => Except.error e) =
                        Except.ok (Val.dict (dset (dset d key (Val.dict [])) key c'), key :: tok)
                      rw [hset']
                    · intro self prev
                      rw [getGo_eq_dict, if_neg (by simp [hdig]), if_neg hbk, if_neg hpl,
                        dget_dset_self]
                      exact hget self _
                  | b y =>
                    have hset' : setGo (Val.b y) (nxt :: rest2) v = Except.ok (c', tok) := hset
                    refine ⟨.dict (dset d key c'), key :: tok, ?_, ?_⟩
                    · rw [setGo_eq_dict_cons, if_neg (by simp [hdig, hbk]),
                        if_neg (by simp [hemp])]
                      simp only [hcur, if_pos hla]
                      show (match setGo (Val.b y) (nxt :: rest2) v with
                            | Except.ok (c', tok) =>
                              Except.ok (Val.dict (dset d key c'), key :: tok)
                            | Except.error e => Except.error e) =
                        Except.ok (Val.dict (dset d key c'), key :: tok)
                      rw [hset']
                    · intro self prev
                      rw [getGo_eq_dict, if_neg (by simp [hdig]), if_neg hbk, if_neg hpl,
                        dget_dset_self]
                      exact hget self _
                  | i y =>
                    have hset' : setGo (Val.i y) (nxt :: rest2) v = Except.ok (c', tok) := hset
                    refine ⟨.dict (dset d key c'), key :: tok, ?_, ?_⟩
                    · rw [setGo_eq_dict_cons, if_neg (by simp [hdig, hbk]),
                        if_neg (by simp [hemp])]
                      simp only [hcur, if_pos hla]
                      show (match setGo (Val.i y) (nxt :: rest2) v with
                            | Except.ok (c', tok) =>
                              Except.ok (Val.dict (dset d key c'), key :: tok)
                            | Except.error e => Except.error e) =
                        Except.ok (Val.dict (dset d key c'), key :: tok)
                      rw [hset']
                    · intro self prev
                      rw [getGo_eq_dict, if_neg (by simp [hdig]), if_neg hbk, if_neg hpl,
                        dget_dset_self]
                      exact hget self _
                  | s y =>
                    have hset' : setGo (Val.s y) (nxt :: rest2) v = Except.ok (c', tok) := hset
                    refine ⟨.dict (dset d key c'), key :: tok, ?_, ?_⟩
                    · rw [setGo_eq_dict_cons, if_neg (by simp [hdig, hbk]),
                        if_neg (by simp [hemp])]
                      simp only [hcur, if_pos hla]
                      show (match setGo (Val.s y) (nxt :: rest2) v with
                            | Except.ok (c', tok) =>
                              Except.ok (Val.dict (dset d key c'), key :: tok)
                            | Except.error e => Except.error e) =
                        Except.ok (Val.dict (dset d key c'), key :: tok)
                      rw [hset']
                    · intro self prev
                      rw [getGo_eq_dict, if_neg (by simp [hdig]), if_neg hbk, if_neg hpl,
                        dget_dset_self]
                      exact hget self _
                  | list ys =>
                    have hset' : setGo (Val.list ys) (nxt :: rest2) v = Except.ok (c', tok) := hset
                    refine ⟨.dict (dset d key c'), key :: tok, ?_, ?_⟩
                    · rw [setGo_eq_dict_cons, if_neg (by simp [hdig, hbk]),
                        if_neg (by simp [hemp])]
                      simp only [hcur, if_pos hla]
                      show (match setGo (Val.list ys) (nxt :: rest2) v with
                            | Except.ok (c', tok) =>
                              Except.ok (Val.dict (dset d key c'), key :: tok)
                            | Except.error e => Except.error e) =
                        Except.ok (Val.dict (dset d key c'), key :: tok)
                      rw [hset']
                    · intro self prev
                      rw [getGo_eq_dict, if_neg (by simp [hdig]), if_neg hbk, if_neg hpl,
                        dget_dset_self]
                      exact hget self _
                  | dict dd =>
                    have hset' : setGo (Val.dict dd) (nxt :: rest2) v = Except.ok (c', tok) := hset
                    refine ⟨.dict (dset d key c'), key :: tok, ?_, ?_⟩
                    · rw [setGo_eq_dict_cons, if_neg (by simp [hdig, hbk]),
                        if_neg (by simp [hemp])]
                      simp only [hcur, if_pos hla]
                      show (match setGo (Val.dict dd) (nxt :: rest2) v with
                            | Except.ok (c', tok) =>
                              Except.ok (Val.dict (dset d key c'), key :: tok)
                            | Except.error e => Except.error e) =
                        Except.ok (Val.dict (dset d key c'), key :: tok)
                      rw [hset']
                    · intro self prev
                      rw [getGo_eq_dict, if_neg (by simp [hdig]), if_neg hbk, if_neg hpl,
                        dget_dset_self]
                      exact hget self _
              · rcases hcur : dget d key with _ | c
                · rw [hcur, if_neg hla] at hset
                  have hset' : setGo (Val.dict []) (nxt :: rest2) v = Except.ok (c', tok) := hset
                  refine ⟨.dict (dset (dset d key (Val.dict [])) key c'), key :: tok, ?_, ?_⟩
                  · rw [setGo_eq_dict_cons, if_neg (by simp [hdig, hbk]),
                      if_neg (by simp [hemp])]
                    simp only [hcur, if_neg hla]
                    show (match setGo (Val.dict []) (nxt :: rest2) v with
                          | Except.ok (c', tok) =>
                            Except.ok (Val.dict (dset (dset d key (Val.dict [])) key c'), key :: tok)
                          | Except.error e => Except.error e) =
                      Except.ok (Val.dict (dset (dset d key (Val.dict [])) key c'), key :: tok)
                    rw [hset']
                  · intro self prev
                    rw [getGo_eq_dict, if_neg (by simp [hdig]), if_neg hbk, if_neg hpl,
                      dget_dset_self]
                    exact hget self _
                · rw [hcur, if_neg hla] at hset
                  cases c with
                  | null =>
                    have hset' : setGo (Val.dict []) (nxt :: rest2) v = Except.ok (c', tok) := hset
                    refine ⟨.dict (dset (dset d key (Val.dict [])) key c'), key :: tok, ?_, ?_⟩
                    · rw [setGo_eq_dict_cons, if_neg (by simp [hdig, hbk]),
                        if_neg (by simp [hemp])]
                      simp only [hcur, if_neg hla]
                      show (match setGo (Val.dict []) (nxt :: rest2) v with
                            | Except.ok (c', tok) =>
                              Except.ok (Val.dict (dset (dset d key (Val.dict [])) key c'), key :: tok)
                            | Except.error e => Except.error e) =
                        Except.ok (Val.dict (dset (dset d key (Val.dict [])) key c'), key :: tok)
                      rw [hset']
                    · intro self prev
                      rw [getGo_eq_dict, if_neg (by simp [hdig]), if_neg hbk, if_neg hpl,
                        dget_dset_self]
                      exact hget self _
                  | b y =>
                    have hset' : setGo (Val.dict []) (nxt :: rest2) v = Except.ok (c', tok) := hset
                    refine ⟨.dict (dset (dset d key (Val.dict [])) key c'), key :: tok, ?_, ?_⟩
                    · rw [setGo_eq_dict_cons, if_neg (by simp [hdig, hbk]),
                        if_neg (by simp [hemp])]
                      simp only [hcur, if_neg hla]
                      show (match setGo (Val.dict []) (nxt :: rest2) v with
                            | Except.ok (c', tok) =>
                              Except.ok (Val.dict (dset (dset d key (Val.dict [])) key c'), key :: tok)
                            | Except.error e => Except.error e) =
                        Except.ok (Val.dict (dset (dset d key (Val.dict [])) key c'), key :: tok)
                      rw [hset']
                    · intro self prev
                      rw [getGo_eq_dict, if_neg (by simp [hdig]), if_neg hbk, if_neg hpl,
                        dget_dset_self]
                      exact hget self _
                  | i y =>
                    have hset' : setGo (Val.dict []) (nxt :: rest2) v = Except.ok (c', tok) := hset
                    refine ⟨.dict (dset (dset d key (Val.dict [])) key c'), key :: tok, ?_, ?_⟩
                    · rw [setGo_eq_dict_cons, if_neg (by simp [hdig, hbk]),
                        if_neg (by simp [hemp])]
                      simp only [hcur, if_neg hla]
                      show (match setGo (Val.dict []) (nxt :: rest2) v with
                            | Except.ok (c', tok) =>
                              Except.ok (Val.dict (dset (dset d key (Val.dict [])) key c'), key :: tok)
                            | Except.error e => Except.error e) =
                        Except.ok (Val.dict (dset (dset d key (Val.dict [])) key c'), key :: tok)
                      rw [hset']
                    · intro self prev
                      rw [getGo_eq_dict, if_neg (by simp [hdig]), if_neg hbk, if_neg hpl,
                        dget_dset_self]
                      exact hget self _
                  | s y =>
                    have hset' : setGo (Val.dict []) (nxt :: rest2) v = Except.ok (c', tok) := hset
                    refine ⟨.dict (dset (dset d key (Val.dict [])) key c'), key :: tok, ?_, ?_⟩
                    · rw [setGo_eq_dict_cons, if_neg (by simp [hdig, hbk]),
                        if_neg (by simp [hemp])]
                      simp only [hcur, if_neg hla]
                      show (match setGo (Val.dict []) (nxt :: rest2) v with
                            | Except.ok (c', tok) =>
                              Except.ok (Val.dict (dset (dset d key (Val.dict [])) key c'), key :: tok)
                            | Except.error e => Except.error e) =
                        Except.ok (Val.dict (dset (dset d key (Val.dict [])) key c'), key :: tok)
                      rw [hset']
                    · intro self prev
                      rw [getGo_eq_dict, if_neg (by simp [hdig]), if_neg hbk, if_neg hpl,
                        dget_dset_self]
                      exact hget self _
                  | list ys =>
                    have hset' : setGo (Val.dict []) (nxt :: rest2) v = Except.ok (c', tok) := hset
                    refine ⟨.dict (dset (dset d key (Val.dict [])) key c'), key :: tok, ?_, ?_⟩
                    · rw [setGo_eq_dict_cons, if_neg (by simp [hdig, hbk]),
                        if_neg (by simp [hemp])]
                      simp only [hcur, if_neg hla]
                      show (match setGo (Val.dict []) (nxt :: rest2) v with
                            | Except.ok (c', tok) =>
                              Except.ok (Val.dict (dset (dset d key (Val.dict [])) key c'), key :: tok)
                            | Except.error e => Except.error e) =
                        Except.ok (Val.dict (dset (dset d key (Val.dict [])) key c'), key :: tok)
                      rw [hset']
                    · intro self prev
                      rw [getGo_eq_dict, if_neg (by simp [hdig]), if_neg hbk, if_neg hpl,
                        dget_dset_self]
                      exact hget self _
                  | dict dd =>
                    have hset' : setGo (Val.dict dd) (nxt :: rest2) v = Except.ok (c', tok) := hset
                    refine ⟨.dict (dset d key c'), key :: tok, ?_, ?_⟩
                    · rw [setGo_eq_dict_cons, if_neg (by simp [hdig, hbk]),
                        if_neg (by simp [hemp])]
                      simp only [hcur, if_neg hla]
                      show (match setGo (Val.dict dd) (nxt :: rest2) v with
                            | Except.ok (c', tok) =>
                              Except.ok (Val.dict (dset d key c'), key :: tok)
                            | Except.error e => Except.error e) =
                        Except.ok (Val.dict (dset d key c'), key :: tok)
                      rw [hset']
                    · intro self prev
                      rw [getGo_eq_dict, if_neg (by simp [hdig]), if_neg hbk, if_neg hpl,
                        dget_dset_self]
                      exact hget self _
          · rw [if_neg hpe] at h
            exact absurd h (by decide)
        | list xs =>
          rw [canSet_eq_list, if_neg (by simp [hdig]), if_neg hbk, ite_self] at h
          exact absurd h (by decide)
        | null => rw [canSet_eq_null] at h; exact absurd h (by decide)
        | b x => rw [canSet_eq_b] at h; exact absurd h (by decide)
        | i x => rw [canSet_eq_i] at h; exact absurd h (by decide)
        | s x => rw [canSet_eq_s] at h; exact absurd h (by decide)

theorem setTainted_data (o : DataObj) (t : String) :
    (DataObj.setTainted o t).data = o.data := by
  rw [DataObj.setTainted]
  split <;> rfl

/-- C1: amended form.  For every token built of identifier, integer and
'[]' segments and every value V: provided the token is compatible with
the object's current contents (canSet: no segment traverses a scalar,
the final segment's write is neither suppressed by the list/dict skip
rule nor aimed at an identifier over a sequence except as the single
segment following '[]'), setValue succeeds, getValue of the canonical
token (the token with each '[]' resolved to the concrete written index)
returns V, and the canonical token is recorded in the taint log.  The
taint-log part holds for every successful setValue; the read-back part
needs the compatibility premise (see C1_counterexample). -/
theorem C1_set_get_roundtrip (o : DataObj) (keys : List String) (v : Val)
    (h : canSet o.data keys v = true) :
    ∃ o' canon, DataObj.setValueKeys o keys v = .ok (o', joinDot canon) ∧
      setGo o.data keys v = .ok (o'.data, canon) ∧
      DataObj.getValueKeys o' canon = .ok v ∧
      joinDot canon ∈ o'.changed := by
  obtain ⟨d', canon, hset, hget⟩ := setGo_roundTrip v keys o.data h
  refine ⟨DataObj.setTainted { o with data := d' } (joinDot canon), canon, ?_, ?_, ?_, ?_⟩
  · rw [DataObj.setValueKeys, hset]
  · rw [setTainted_data]
    exact hset
  · rw [DataObj.getValueKeys, setTainted_data]
    exact hget _ none
  · exact mem_setTainted _ _

theorem C1_witness :
    canSet (Val.dict [] : Val) ["a", "b"] (Val.i 5) = true ∧
    (∃ o' canon,
      DataObj.setValueKeys ⟨Val.dict [], [], false⟩ ["a", "b"] (Val.i 5) =
        .ok (o', joinDot canon) ∧
      setGo (Val.dict []) ["a", "b"] (Val.i 5) = .ok (o'.data, canon) ∧
      DataObj.getValueKeys o' canon = .ok (Val.i 5) ∧
      joinDot canon ∈ o'.changed) :=
  ⟨by decide, C1_set_get_roundtrip ⟨Val.dict [], [], false⟩ ["a", "b"] (Val.i 5) (by decide)⟩

/-- C1: counterexample to the claim as stated.  On the object
{"a": 5}, setValue("a.2", 7) succeeds (the loop rebinds its local
cursor to a fresh dict over the scalar 5, losing the write), records
the canonical token "a.2" in the taint log, and leaves the tree
unchanged; getValue("a.2") then raises LookupError instead of
returning 7. -/
theorem C1_counterexample :
    DataObj.setValueKeys ⟨Val.dict [("a", Val.i 5)], [], false⟩ ["a", "2"] (Val.i 7) =
      .ok (⟨Val.dict [("a", Val.i 5)], ["a.2"], false⟩, "a.2") ∧
    DataObj.getValueKeys ⟨Val.dict [("a", Val.i 5)], ["a.2"], false⟩ ["a", "2"] =
      .error () :=
  ⟨rfl, rfl⟩

theorem enumPairsAux_append (v : Val) :
    ∀ (vs : List Val) (i : Nat),
      enumPairsAux i (vs ++ [v]) = enumPairsAux i vs ++ [(natToStr (i + vs.length), v)] := by
  intro vs
  induction vs with
  | nil => intro i; simp [enumPairsAux]
  | cons w ws ih =>
    intro i
    show (natToStr i, w) :: enumPairsAux (i + 1) (ws ++ [v]) = _
    rw [ih (i + 1)]
    have harg : i + 1 + ws.length = i + (w :: ws).length := by
      simp [List.length_cons]
      omega
    rw [harg]
    simp [enumPairsAux]

theorem enumPairsAux_all_digit :
    ∀ (vs : List Val) (i : Nat),
      (enumPairsAux i vs).all (fun p => isDigitStr p.1) = true := by
  intro vs
  induction vs with
  | nil => intro i; rfl
  | cons w ws ih =>
    intro i
    simp only [enumPairsAux, List.all_cons, Bool.and_eq_true]
    exact ⟨isDigitStr_natToStr i, ih (i + 1)⟩

theorem enumPairsAux_map_snd :
    ∀ (vs : List Val) (i : Nat), (enumPairsAux i vs).map (fun p => p.2) = vs := by
  intro vs
  induction vs with
  | nil => intro i; rfl
  | cons w ws ih =>
    intro i
    simp only [enumPairsAux, List.map_cons, ih]

theorem max_max_absorb (a i m : Nat) (h : i ≤ m) :
    Nat.max (Nat.max a i) m = Nat.max a m := by
  simp only [Nat.max_def]
  split <;> split <;> omega

theorem enumPairsAux_max :
    ∀ (vs : List Val), vs ≠ [] → ∀ (i a : Nat),
      ((enumPairsAux i vs).map (fun p => strToNat p.1)).foldl Nat.max a =
        Nat.max a (i + vs.length - 1) := by
  intro vs
  induction vs with
  | nil => intro h; exact absurd rfl h
  | cons w ws ih =>
    intro _ i a
    simp only [enumPairsAux, List.map_cons, List.foldl_cons, strToNat_natToStr]
    cases hws : ws with
    | nil =>
      show Nat.max a i = _
      simp
    | cons w2 ws2 =>
      rw [← hws, ih (by rw [hws]; simp) (i + 1) (Nat.max a i)]
      rw [hws, max_max_absorb _ _ _ (by simp; omega)]
      congr 1
      simp
      omega

theorem enumPairsAux_dget_none :
    ∀ (vs : List Val) (i j : Nat), i + vs.length ≤ j →
      dget (enumPairsAux i vs) (natToStr j) = none := by
  intro vs
  induction vs with
  | nil => intro i j _; rfl
  | cons w ws ih =>
    intro i j hj
    show dget ((natToStr i, w) :: enumPairsAux (i + 1) ws) (natToStr j) = none
    rw [dget, if_neg (fun he => by have := natToStr_inj he; simp at hj; omega)]
    exact ih (i + 1) j (by simp at hj ⊢; omega)

theorem dset_append (k : String) (v : Val) :
    ∀ (d : List (String × Val)), dget d k = none → dset d k v = d ++ [(k, v)] := by
  intro d
  induction d with
  | nil => intro _; rfl
  | cons p r ih =>
    intro hget
    obtain ⟨k', w⟩ := p
    rw [dget] at hget
    by_cases h : k' = k
    · rw [if_pos h] at hget
      exact absurd hget (by simp)
    · rw [if_neg h] at hget
      rw [dset, if_neg h, ih hget]
      rfl

theorem enumPairsAux_ne_nil (vs : List Val) (i : Nat) (h : vs ≠ []) :
    (enumPairsAux i vs).isEmpty = false := by
  cases vs with
  | nil => exact absurd rfl h
  | cons w ws => rfl

theorem appendStep_data (o : DataObj) (v : Val) (ws : List Val) (hws : ws ≠ [])
    (hd : o.data = Val.dict [("x", Val.dict (enumPairsAux 0 ws))]) :
    (appendStep o v).data = Val.dict [("x", Val.dict (enumPairsAux 0 (ws ++ [v])))] := by
  have hlen : 0 < ws.length := List.length_pos.mpr hws
  have hcondS : (!(enumPairsAux 0 ws).isEmpty &&
      (enumPairsAux 0 ws).all (fun p => isDigitStr p.1)) = true := by
    rw [enumPairsAux_ne_nil ws 0 hws, enumPairsAux_all_digit ws 0]
    rfl
  have hmax : maxIntKey (enumPairsAux 0 ws) + 1 = ws.length := by
    rw [maxIntKey, enumPairsAux_max ws hws 0 0]
    simp only [Nat.max_def]
    split <;> omega
  have hdg : dget (enumPairsAux 0 ws) (natToStr ws.length) = none :=
    enumPairsAux_dget_none ws 0 ws.length (by omega)
  have hbr : ("[]" : String) = "[]" := rfl
  have hK : (if "[]" = "[]" then
        (if !(enumPairsAux 0 ws).isEmpty &&
            (enumPairsAux 0 ws).all (fun p => isDigitStr p.1)
         then natToStr (maxIntKey (enumPairsAux 0 ws) + 1) else "0")
        else "[]") = natToStr ws.length := by
    rw [if_pos hbr, if_pos hcondS, hmax]
  have hinner : setGo (Val.dict (enumPairsAux 0 ws)) ["[]"] v =
      Except.ok (Val.dict (enumPairsAux 0 (ws ++ [v])), [natToStr ws.length]) := by
    rw [setGo_eq_dict_last, if_pos (by decide), hK,
      dset_append (natToStr ws.length) v (enumPairsAux 0 ws) hdg,
      enumPairsAux_append v ws 0, Nat.zero_add]
  have houter : setGo (Val.dict [("x", Val.dict (enumPairsAux 0 ws))]) ["x", "[]"] v =
      Except.ok (Val.dict [("x", Val.dict (enumPairsAux 0 (ws ++ [v])))],
        ["x", natToStr ws.length]) := by
    rw [setGo_eq_dict_cons, if_neg (by decide), if_neg (by decide)]
    show (match setGo (Val.dict (enumPairsAux 0 ws)) ["[]"] v with
          | Except.ok (c', tok) =>
            Except.ok (Val.dict (dset [("x", Val.dict (enumPairsAux 0 ws))] "x" c'),
              "x" :: tok)
          | Except.error e => Except.error e) = _
    rw [hinner]
    rfl
  have hsvk : DataObj.setValueKeys o ["x", "[]"] v =
      Except.ok (DataObj.setTainted
        { o with data := Val.dict [("x", Val.dict (enumPairsAux 0 (ws ++ [v])))] }
        (joinDot ["x", natToStr ws.length]), joinDot ["x", natToStr ws.length]) := by
    rw [DataObj.setValueKeys, hd, houter]
  rw [appendStep, hsvk]
  show (DataObj.setTainted
      { o with data := Val.dict [("x", Val.dict (enumPairsAux 0 (ws ++ [v])))] }
      (joinDot ["x", natToStr ws.length])).data = _
  rw [setTainted_data]

theorem appendN_data :
    ∀ (vs : List Val) (o : DataObj) (ws : List Val), ws ≠ [] →
      o.data = Val.dict [("x", Val.dict (enumPairsAux 0 ws))] →
      (appendN o vs).data = Val.dict [("x", Val.dict (enumPairsAux 0 (ws ++ vs)))] := by
  intro vs
  induction vs with
  | nil =>
    intro o ws _ hd
    rw [appendN, List.foldl_nil, List.append_nil]
    exact hd
  | cons w vs2 ih =>
    intro o ws hws hd
    rw [appendN, List.foldl_cons, ← appendN]
    have harr : (ws ++ [w]) ++ vs2 = ws ++ w :: vs2 := by simp
    have hstep := appendStep_data o w ws hws hd
    have hrec := ih (appendStep o w) (ws ++ [w]) (by simp) hstep
    rw [harr] at hrec
    exact hrec

theorem getValue_of_data_enum (o : DataObj) (vs : List Val) (hvs : vs ≠ [])
    (hd : o.data = Val.dict [("x", Val.dict (enumPairsAux 0 vs))]) :
    DataObj.getValue o "x" = .ok (Val.dict (enumPairsAux 0 vs)) ∧
    DataObj.getValue o "x.[]" = .ok (Val.list vs) := by
  have hcond : (!(enumPairsAux 0 vs).isEmpty &&
      (enumPairsAux 0 vs).all (fun p => isDigitStr p.1)) = true := by
    rw [enumPairsAux_ne_nil vs 0 hvs, enumPairsAux_all_digit vs 0]
    rfl
  have hbr : ("[]" : String) = "[]" := rfl
  constructor
  · rw [DataObj.getValue, if_neg (by decide)]
    have hsp : pySplit "x" = ["x"] := rfl
    rw [hsp, hd, getGo_eq_dict, if_neg (by decide), if_neg (by decide), if_neg (by decide),
      dget_cons_self]
    rfl
  · rw [DataObj.getValue, if_neg (by decide)]
    have hsp : pySplit "x.[]" = ["x", "[]"] := rfl
    rw [hsp, hd, getGo_eq_dict, if_neg (by decide), if_neg (by decide), if_neg (by decide),
      dget_cons_self]
    show getGo (Val.dict [("x", Val.dict (enumPairsAux 0 vs))]) (some "x")
        (Val.dict (enumPairsAux 0 vs)) ["[]"] = Except.ok (Val.list vs)
    rw [getGo_eq_dict, if_neg (by decide), if_pos hbr, if_pos hcond, getGo_eq_nil,
      enumPairsAux_map_snd]

/-- C3: amended form.  Starting from an empty DataObject, performing
setValue("x.[]", V_i) for i = 1..n (n >= 1) and then getValue("x")
yields not a sequence but the integer-keyed MAPPING str(0) to V_1, ...,
str(n-1) to V_n ('[]' on the dict under "x" allocates the next integer
key, max+1, starting at 0, exactly as the claim says, but the first
'[]' creates a dict, never a list, so no append-to-sequence ever
happens on this path); the mapping does hold the n values in insertion
order, and reading getValue("x.[]") converts it to the sequence
[V_1, ..., V_n]. -/
theorem C3_array_append (vs : List Val) (h : vs ≠ []) :
    DataObj.getValue (appendN ⟨Val.dict [], [], false⟩ vs) "x" =
      .ok (Val.dict (enumPairs vs)) ∧
    (enumPairs vs).map (fun p => p.2) = vs ∧
    (Val.dict (enumPairs vs)).isList = false ∧
    DataObj.getValue (appendN ⟨Val.dict [], [], false⟩ vs) "x.[]" =
      .ok (Val.list vs) := by
  cases vs with
  | nil => exact absurd rfl h
  | cons w vs2 =>
    have hstep : (appendStep ⟨Val.dict [], [], false⟩ w).data =
        Val.dict [("x", Val.dict (enumPairsAux 0 [w]))] := rfl
    have hdata : (appendN ⟨Val.dict [], [], false⟩ (w :: vs2)).data =
        Val.dict [("x", Val.dict (enumPairsAux 0 (w :: vs2)))] := by
      rw [appendN, List.foldl_cons, ← appendN]
      exact appendN_data vs2 (appendStep ⟨Val.dict [], [], false⟩ w) [w]
        (List.cons_ne_nil w []) hstep
    have hg := getValue_of_data_enum (appendN ⟨Val.dict [], [], false⟩ (w :: vs2))
      (w :: vs2) (List.cons_ne_nil w vs2) hdata
    refine ⟨?_, ?_, ?_, ?_⟩
    · rw [enumPairs]
      exact hg.1
    · rw [enumPairs]
      exact enumPairsAux_map_snd (w :: vs2) 0
    · rfl
    · exact hg.2

theorem C3_witness :
    ([Val.i 1, Val.i 2] : List Val) ≠ [] ∧
    (DataObj.getValue (appendN ⟨Val.dict [], [], false⟩ [Val.i 1, Val.i 2]) "x" =
        .ok (Val.dict (enumPairs [Val.i 1, Val.i 2])) ∧
      (enumPairs [Val.i 1, Val.i 2]).map (fun p => p.2) = [Val.i 1, Val.i 2] ∧
      (Val.dict (enumPairs [Val.i 1, Val.i 2])).isList = false ∧
      DataObj.getValue (appendN ⟨Val.dict [], [], false⟩ [Val.i 1, Val.i 2]) "x.[]" =
        .ok (Val.list [Val.i 1, Val.i 2])) :=
  ⟨List.cons_ne_nil _ _, C3_array_append [Val.i 1, Val.i 2] (List.cons_ne_nil _ _)⟩

/-- C3: counterexample to the claim as stated.  After a single
setValue("x.[]", 7) on an empty DataObject, getValue("x") returns the
mapping {"0": 7} — a dict, not a sequence. -/
theorem C3_counterexample :
    DataObj.getValue (appendN ⟨Val.dict [], [], false⟩ [Val.i 7]) "x" =
      .ok (Val.dict [("0", Val.i 7)]) ∧
    (Val.dict [("0", Val.i 7)]).isList = false :=
  ⟨rfl, rfl⟩

theorem pcNorm_dict (d : List (String × Val)) :
    pcNorm (.dict d) =
      (if isNumDict d then Val.list (d.map (fun p => pcNorm p.2))
       else .dict (d.map (fun p => (p.1, pcNorm p.2)))) := by
  rw [pcNorm, List.attach_map_val d (fun p => pcNorm p.2),
    List.attach_map_val d (fun p => (p.1, pcNorm p.2))]

theorem pcNorm_list (xs : List Val) : pcNorm (.list xs) = .list (xs.map pcNorm) := by
  rw [pcNorm, List.attach_map_val xs pcNorm]

theorem pcNorm_i (x : Int) : pcNorm (.i x) = .i x := by rw [pcNorm]

theorem pcAfter_dict (d : List (String × Val)) :
    pcAfter (.dict d) =
      (if isNumDict d then Val.dict (d.map (fun p => (p.1, pcAfter p.2)))
       else .dict (d.map (fun p => (p.1, pcNorm p.2)))) := by
  rw [pcAfter, List.attach_map_val d (fun p => (p.1, pcAfter p.2)),
    List.attach_map_val d (fun p => (p.1, pcNorm p.2))]

theorem pcAfter_list (xs : List Val) : pcAfter (.list xs) = .list (xs.map pcAfter) := by
  rw [pcAfter, List.attach_map_val xs pcAfter]

/-- C8: refuted (code bug).  The collection normalization is not purely
computational: __prepareCollectionObject copies only the top level of
its argument (a shallow .copy()), and traverseDataObject overwrites
the slots of every non-numeric mapping in place, so nested shared
structure of the ORIGINAL object is rewritten.  On the input
{'a': {'b': {'0': 1}}} the call returns the normalization
{'a': {'b': [1]}}, and afterwards the original object equals that same
reshaped value — its nested numeric mapping {'0': 1} has been replaced
by the list [1] — instead of being unchanged at every nesting depth as
claimed. -/
theorem C8_normalization_mutates_original :
    pcPrepare (Val.dict [("a", Val.dict [("b", Val.dict [("0", Val.i 1)])])]) =
      Val.dict [("a", Val.dict [("b", Val.list [Val.i 1])])] ∧
    pcOriginalAfter (Val.dict [("a", Val.dict [("b", Val.dict [("0", Val.i 1)])])]) =
      Val.dict [("a", Val.dict [("b", Val.list [Val.i 1])])] ∧
    Val.dict [("a", Val.dict [("b", Val.list [Val.i 1])])] ≠
      Val.dict [("a", Val.dict [("b", Val.dict [("0", Val.i 1)])])] := by
  have hN : isNumDict [("0", Val.i 1)] = true := rfl
  have hX : isNumDict [("b", Val.dict [("0", Val.i 1)])] = false := rfl
  have hD : isNumDict [("a", Val.dict [("b", Val.dict [("0", Val.i 1)])])] = false := rfl
  refine ⟨?_, ?_, ?_⟩
  · simp [pcPrepare, pcNorm_dict, pcNorm_i, hN, hX, hD]
  · simp [pcOriginalAfter, pcAfter_dict, pcNorm_dict, pcNorm_i, hN, hX]
  · simp

theorem dget_map_key (ks : List String) (g : String → Val) (k : String) (h : k ∈ ks) :
    dget (ks.map (fun k2 => (k2, g k2))) k = some (g k) := by
  induction ks with
  | nil => exact absurd h (List.not_mem_nil k)
  | cons a r ih =>
    simp only [List.map_cons]
    rw [dget]
    by_cases he : a = k
    · rw [if_pos he, he]
    · rw [if_neg he]
      rcases List.mem_cons.mp h with h1 | h1
      · exact absurd h1.symm he
      · exact ih h1

theorem tget_map (f : Val → Val) :
    ∀ (props : List (String × Val)) (k : String),
      tget (props.map (fun x => (x.1, x.2, f x.2))) k =
        (dget props k).map (fun p => (p, f p)) := by
  intro props
  induction props with
  | nil => intro k; rfl
  | cons q r ih =>
    intro k
    obtain ⟨k1, w⟩ := q
    simp only [List.map_cons]
    rw [tget, dget]
    by_cases he : k1 = k
    · rw [if_pos he, if_pos he]
      rfl
    · rw [if_neg he, if_neg he]
      exact ih k

theorem bdAssemble_dget (tbl : List (String × Val × Val)) (ks : List String) (k : String)
    (hchk : ks.all (bdOk tbl) = true) (hin : k ∈ ks) :
    ∃ entries, bdAssemble tbl ks = Val.dict entries ∧
      dget entries k = some (bdEntry tbl k) := by
  refine ⟨ks.map (fun k2 => (k2, bdEntry tbl k2)), ?_, ?_⟩
  · rw [bdAssemble, if_pos hchk]
  · exact dget_map_key ks (bdEntry tbl) k hin

theorem buildDefault_object_required (d props pd : List (String × Val)) (rs : List Val) (k : String)
    (hobj : typeIs d "object" = true)
    (hP : dget d "properties" = some (Val.dict props))
    (hR : dget d "required" = some (Val.list rs))
    (hrs : ∀ r ∈ rs, ∃ s2, r = Val.s s2)
    (hk : Val.s k ∈ rs)
    (hkp : dget props k = some (Val.dict pd))
    (htype : pyTruthy (vGet pd "type") = true)
    (hall : ∀ k2 p2, dget props k2 = some p2 → pyTruthy p2 = true → p2.isDict = true) :
    ∃ entries, buildDefaultValue (Val.dict d) = Val.dict entries ∧
      dget entries k = some (buildDefaultValue (Val.dict pd)) := by
  have hT : dget d "type" = some (Val.s "object") := by
    rw [typeIs] at hobj
    rcases hTT : dget d "type" with _ | v
    · rw [hTT] at hobj
      exact Bool.noConfusion hobj
    · rw [hTT] at hobj
      cases v with
      | s t =>
        have ht2 : t = "object" := by
          have hbe : (t == "object") = true := hobj
          exact eq_of_beq hbe
        rw [ht2]
      | null => exact Bool.noConfusion hobj
      | b x => exact Bool.noConfusion hobj
      | i x => exact Bool.noConfusion hobj
      | list xs => exact Bool.noConfusion hobj
      | dict dd => exact Bool.noConfusion hobj
  have harr : typeIs d "array" = false := by
    rw [typeIs, hT]
    rfl
  have hpne : props.isEmpty = false := by
    cases props with
    | nil =>
      rw [dget] at hkp
      exact Option.noConfusion hkp
    | cons a r => rfl
  have hrsne : rs.isEmpty = false := by
    cases rs with
    | nil => exact absurd hk (List.not_mem_nil _)
    | cons a r => rfl
  have hclean : rs.all (fun r => match r with
      | Val.list _ => false | Val.dict _ => false | _ => true) = true := by
    rw [List.all_eq_true]
    intro r hr
    obtain ⟨s2, rfl⟩ := hrs r hr
    rfl
  have hvk : valKeys (Val.list rs) = some (rs.filterMap (fun r => match r with
      | Val.s k2 => some k2 | _ => none)) := by
    rw [valKeys, if_pos hclean]
  have hreqT : pyTruthy ((dget d "required").getD Val.null) = true := by
    rw [hR]
    show (!rs.isEmpty) = true
    rw [hrsne]
    rfl
  have hBD : buildDefaultValue (Val.dict d) =
      bdAssemble (props.map (fun x => (x.1, x.2, buildDefaultValue x.2)))
        ((rs.filterMap (fun r => match r with | Val.s k2 => some k2 | _ => none)).dedup.filter
          (fun k2 => (tget (props.map (fun x => (x.1, x.2, buildDefaultValue x.2))) k2).isSome)) := by
    rw [buildDefaultValue, if_neg (by simp [harr]), if_pos hobj]
    split
    · rename_i props2 heq
      rw [hP] at heq
      injection heq with heq2
      injection heq2 with heq3
      subst heq3
      rw [if_neg (by simp [hpne])]
      show (if pyTruthy ((dget d "required").getD Val.null) = true then
          match valKeys ((dget d "required").getD Val.null) with
          | some ks =>
            bdAssemble (props.attach.map (fun q => (q.1.1, q.1.2, buildDefaultValue q.1.2)))
              (ks.dedup.filter (fun k2 =>
                (tget (props.attach.map (fun q => (q.1.1, q.1.2, buildDefaultValue q.1.2))) k2).isSome))
          | none => Val.null
        else bdAssemble (props.attach.map (fun q => (q.1.1, q.1.2, buildDefaultValue q.1.2)))
          (props.map (fun q => q.1))) = _
      rw [if_pos hreqT]
      have hreqV : valKeys ((dget d "required").getD Val.null) = some (rs.filterMap
          (fun r => match r with | Val.s k2 => some k2 | _ => none)) := by
        rw [hR]
        exact hvk
      rw [hreqV, List.attach_map_val props (fun x => (x.1, x.2, buildDefaultValue x.2))]
    · rename_i pv hno heq
      rw [hP] at heq
      injection heq with h2
      exact absurd (hno props h2.symm) (fun hf => hf)
    · rename_i heq
      rw [hP] at heq
      exact Option.noConfusion heq
  have htgk : tget (props.map (fun x => (x.1, x.2, buildDefaultValue x.2))) k =
      some (Val.dict pd, buildDefaultValue (Val.dict pd)) := by
    rw [tget_map buildDefaultValue props k, hkp]
    rfl
  have hkin : k ∈ (rs.filterMap (fun r => match r with
      | Val.s k2 => some k2 | _ => none)).dedup.filter
        (fun k2 => (tget (props.map (fun x => (x.1, x.2, buildDefaultValue x.2))) k2).isSome) := by
    rw [List.mem_filter]
    constructor
    · rw [List.mem_dedup]
      exact List.mem_filterMap.mpr ⟨Val.s k, hk, rfl⟩
    · rw [htgk]
      rfl
  have hchk : ((rs.filterMap (fun r => match r with
      | Val.s k2 => some k2 | _ => none)).dedup.filter
        (fun k2 => (tget (props.map (fun x => (x.1, x.2, buildDefaultValue x.2))) k2).isSome)).all
      (bdOk (props.map (fun x => (x.1, x.2, buildDefaultValue x.2)))) = true := by
    rw [List.all_eq_true]
    intro k2 hk2
    have his : (tget (props.map (fun x => (x.1, x.2, buildDefaultValue x.2))) k2).isSome = true :=
      (List.mem_filter.mp hk2).2
    rw [bdOk]
    cases hdg : dget props k2 with
    | none =>
      rw [tget_map buildDefaultValue props k2, hdg] at his
      exact Bool.noConfusion his
    | some p2 =>
      rw [tget_map buildDefaultValue props k2, hdg]
      cases hpt : pyTruthy p2 with
      | false => simp [hpt]
      | true =>
        have hid := hall k2 p2 hdg hpt
        simp [hpt, hid]
  obtain ⟨entries, hasm, hdg2⟩ := bdAssemble_dget
    (props.map (fun x => (x.1, x.2, buildDefaultValue x.2)))
    ((rs.filterMap (fun r => match r with | Val.s k2 => some k2 | _ => none)).dedup.filter
      (fun k2 => (tget (props.map (fun x => (x.1, x.2, buildDefaultValue x.2))) k2).isSome))
    k hchk hkin
  refine ⟨entries, ?_, ?_⟩
  · rw [hBD]
    exact hasm
  · rw [hdg2]
    congr 1
    rw [bdEntry, htgk]
    have hpdT : pyTruthy (Val.dict pd) = true := by
      cases pd with
      | nil => exact Bool.noConfusion htype
      | cons a r => rfl
    show (if pyTruthy (Val.dict pd) = true then
        (if (typeIs pd "array" || typeIs pd "object") = true then buildDefaultValue (Val.dict pd)
         else vGet pd "default")
      else Val.null) = buildDefaultValue (Val.dict pd)
    rw [if_pos hpdT]
    cases hAO : (typeIs pd "array" || typeIs pd "object") with
    | true => rfl
    | false =>
      show vGet pd "default" = buildDefaultValue (Val.dict pd)
      have h1 : typeIs pd "array" = false := by
        cases hx : typeIs pd "array"
        · rfl
        · rw [hx] at hAO
          simp at hAO
      have h2 : typeIs pd "object" = false := by
        cases hx : typeIs pd "object"
        · rfl
        · rw [hx] at hAO
          simp at hAO
      rw [buildDefaultValue, if_neg (by simp [h1]), if_neg (by simp [h2]), if_pos htype]


/-- C7: for every registered domain schema the registry computes
defaults recursively: a schema of type 'array' yields []; a schema of
type 'object' yields a map in which each required key (present among
the properties, with a dict subschema carrying a truthy type, as every
well-formed required property has) receives its subschema's
recursively computed default; a scalar schema (truthy type neither
'array' nor 'object') yields its declared 'default' value, or null
when none is declared; and a token whose domain has no registered
schema yields null. -/
theorem C7_registry_defaults :
    (∀ d : List (String × Val), typeIs d "array" = true →
      buildDefaultValue (Val.dict d) = Val.list []) ∧
    (∀ (d props pd : List (String × Val)) (rs : List Val) (k : String),
      typeIs d "object" = true →
      dget d "properties" = some (Val.dict props) →
      dget d "required" = some (Val.list rs) →
      (∀ r ∈ rs, ∃ s2, r = Val.s s2) →
      Val.s k ∈ rs →
      dget props k = some (Val.dict pd) →
      pyTruthy (vGet pd "type") = true →
      (∀ k2 p2, dget props k2 = some p2 → pyTruthy p2 = true → p2.isDict = true) →
      ∃ entries, buildDefaultValue (Val.dict d) = Val.dict entries ∧
        dget entries k = some (buildDefaultValue (Val.dict pd))) ∧
    (∀ d : List (String × Val), typeIs d "array" = false →
      typeIs d "object" = false → pyTruthy (vGet d "type") = true →
      buildDefaultValue (Val.dict d) = (dget d "default").getD Val.null) ∧
    (∀ (reg : List (String × RegCls)) (token : String),
      rget reg (pySplitOnce token).1 = none → pyGetDefaultValue reg token = Val.null) := by
  refine ⟨?_, ?_, ?_, ?_⟩
  · intro d ha
    rw [buildDefaultValue, if_pos ha]
  · intro d props pd rs k h1 h2 h3 h4 h5 h6 h7 h8
    exact buildDefault_object_required d props pd rs k h1 h2 h3 h4 h5 h6 h7 h8
  · intro d ha ho ht
    rw [buildDefaultValue, if_neg (by simp [ha]), if_neg (by simp [ho]), if_pos ht]
    rfl
  · intro reg token hm
    rw [pyGetDefaultValue, hm]

theorem C7_witness :
    buildDefaultValue (Val.dict [("type", Val.s "array")]) = Val.list [] ∧
    (∃ entries,
      buildDefaultValue (Val.dict [("type", Val.s "object"),
        ("properties", Val.dict [("name",
          Val.dict [("type", Val.s "string"), ("default", Val.s "free.dm")])]),
        ("required", Val.list [Val.s "name"])]) = Val.dict entries ∧
      dget entries "name" =
        some (buildDefaultValue (Val.dict [("type", Val.s "string"),
          ("default", Val.s "free.dm")]))) ∧
    buildDefaultValue (Val.dict [("type", Val.s "integer"), ("default", Val.i 8080)]) =
      (dget [("type", Val.s "integer"), ("default", Val.i 8080)] "default").getD Val.null ∧
    pyGetDefaultValue [] "unknown.key" = Val.null :=
  ⟨C7_registry_defaults.1 _ (by decide),
   C7_registry_defaults.2.1 _ _ _ _ "name" (by decide) rfl rfl
     (fun r hr => by
        simp only [List.mem_singleton] at hr
        exact ⟨"name", hr⟩)
     (by simp)
     rfl
     (by decide)
     (fun k2 p2 h2 ht2 => by
        rw [dget] at h2
        by_cases he : "name" = k2
        · rw [if_pos he] at h2
          injection h2 with h3
          rw [← h3]
          rfl
        · rw [if_neg he] at h2
          rw [dget] at h2
          exact Option.noConfusion h2),
   C7_registry_defaults.2.2.1 _ (by decide) (by decide) (by decide),
   C7_registry_defaults.2.2.2 [] "unknown.key" rfl⟩

/-- C4: for every token and value, if the store is not writable, or
the (non-None) value fails validation against the domain's schema,
DataStore.setValue returns False and the store — its domain map and
thereby every domain's taint log — is unchanged: both rejections
happen in the pre-check block, before the tree is touched or any taint
recorded. -/
theorem C4_store_set_rejects :
    (∀ (ops : StoreOps) (gd : String → Option DataObj) (st : StoreState)
        (token : String) (value : Val),
      StoreState.writable st = false →
      pyStoreSetValue ops gd st token value = (st, false)) ∧
    (∀ (ops : StoreOps) (gd : String → Option DataObj) (st : StoreState)
        (token : String) (value : Val),
      value.isNull = false → ops.validate token value = Val.null →
      pyStoreSetValue ops gd st token value = (st, false)) := by
  constructor
  · intro ops gd st token value hw
    rw [pyStoreSetValue, if_pos (by rw [hw]; rfl)]
  · intro ops gd st token value hv hval
    rw [pyStoreSetValue]
    cases hw : StoreState.writable st with
    | false => rw [if_pos (by rfl)]
    | true =>
      rw [if_neg (by simp), if_pos (by rw [hv, hval]; rfl)]

theorem C4_witness :
    StoreState.writable ⟨false, false, false, []⟩ = false ∧
    pyStoreSetValue ⟨fun _ _ => Val.null, fun _ => Val.null, fun _ _ => .error (), fun _ _ _ => .ok true⟩
      (fun _ => none) ⟨false, false, false, []⟩ "freedm.network.name" (Val.i 42) =
      (⟨false, false, false, []⟩, false) ∧
    (Val.i 42).isNull = false ∧
    StoreOps.validate ⟨fun _ _ => Val.null, fun _ => Val.null, fun _ _ => .error (), fun _ _ _ => .ok true⟩
      "freedm.network.name" (Val.i 42) = Val.null ∧
    pyStoreSetValue ⟨fun _ _ => Val.null, fun _ => Val.null, fun _ _ => .error (), fun _ _ _ => .ok true⟩
      (fun _ => none) ⟨true, false, false, []⟩ "freedm.network.name" (Val.i 42) =
      (⟨true, false, false, []⟩, false) :=
  ⟨rfl,
   C4_store_set_rejects.1 _ _ _ _ _ rfl,
   rfl, rfl,
   C4_store_set_rejects.2 _ _ _ _ _ rfl rfl⟩

/-- C10: for every token and every store — including writable ones
whose validator accepts null — DataStore.setValue with value None
returns False and performs no write and records no taint: either the
writability pre-check raises first, or the unconditional
value-is-None pre-check raises, both before the tree is touched. -/
theorem C10_store_set_none (ops : StoreOps) (gd : String → Option DataObj)
    (st : StoreState) (token : String) :
    pyStoreSetValue ops gd st token Val.null = (st, false) := by
  rw [pyStoreSetValue]
  cases hw : StoreState.writable st with
  | false => rw [if_pos (by rfl)]
  | true =>
    rw [if_neg (by simp), if_neg (by simp [Val.isNull]), if_pos (by rfl)]

/-- C5: amended form.  When the value retrieved for the token is
non-null and fails schema validation on read, DataStore.getValue
returns null REGARDLESS of any supplied default: the validator's None
result is returned directly (the claimed fallback to the default does
not exist on this path).  The supplied default is consulted only when
retrieval itself yields null: then a default equal to the (stripped)
token string is replaced by the schema's computed default, and any
other default is returned through the validator. -/
theorem C5_store_get_validation :
    (∀ (ops : StoreOps) (gd : String → Option DataObj) (st : StoreState)
        (token : String) (default : Val) (dom : String) (o : DataObj)
        (key : String) (v : Val),
      resolveDomain st gd (stripArr token) = (some (dom, o), key) →
      DataObj.getValue o key = .ok v →
      v.isNull = false →
      ops.validate (stripArr token) v = Val.null →
      pyStoreGetValue ops gd st token default = Val.null) ∧
    (∀ (ops : StoreOps) (gd : String → Option DataObj) (st : StoreState)
        (token : String) (default : Val) (dom : String) (o : DataObj) (key : String),
      resolveDomain st gd (stripArr token) = (some (dom, o), key) →
      DataObj.getValue o key = .ok Val.null →
      default.isNull = false →
      defaultEqTok default (stripArr token) = false →
      pyStoreGetValue ops gd st token default = ops.validate (stripArr token) default) ∧
    (∀ (ops : StoreOps) (gd : String → Option DataObj) (st : StoreState)
        (token : String) (dom : String) (o : DataObj) (key : String),
      resolveDomain st gd (stripArr token) = (some (dom, o), key) →
      DataObj.getValue o key = .ok Val.null →
      pyStoreGetValue ops gd st token (Val.s (stripArr token)) =
        ops.getDefault (stripArr token)) := by
  refine ⟨?_, ?_, ?_⟩
  · intro ops gd st token default dom o key v hres hget hvn hval
    simp only [pyStoreGetValue, hres, hget]
    rw [hvn, if_pos (by rfl)]
    exact hval
  · intro ops gd st token default dom o key hres hget hdn hmt
    simp only [pyStoreGetValue, hres, hget]
    rw [if_neg (by decide), if_pos (by rw [hdn]; rfl), if_neg (by rw [hmt]; exact Bool.false_ne_true)]
  · intro ops gd st token dom o key hres hget
    simp only [pyStoreGetValue, hres, hget]
    rw [if_neg (by decide), if_pos (by rfl)]
    rw [if_pos (show defaultEqTok (Val.s (stripArr token)) (stripArr token) = true by
      show ((stripArr token) == (stripArr token)) = true
      exact beq_self_eq_true _)]

theorem C5_witness :
    resolveDomain ⟨true, false, false, [("a", ⟨Val.dict [("x", Val.i 5)], [], false⟩)]⟩
      (fun _ => none) (stripArr "a.x") =
      (some ("a", ⟨Val.dict [("x", Val.i 5)], [], false⟩), "x") ∧
    DataObj.getValue ⟨Val.dict [("x", Val.i 5)], [], false⟩ "x" = .ok (Val.i 5) ∧
    (Val.i 5).isNull = false ∧
    StoreOps.validate ⟨fun _ _ => Val.null, fun _ => Val.i 1, fun _ _ => .error (), fun _ _ _ => .ok true⟩
      (stripArr "a.x") (Val.i 5) = Val.null ∧
    pyStoreGetValue ⟨fun _ _ => Val.null, fun _ => Val.i 1, fun _ _ => .error (), fun _ _ _ => .ok true⟩
      (fun _ => none) ⟨true, false, false, [("a", ⟨Val.dict [("x", Val.i 5)], [], false⟩)]⟩
      "a.x" (Val.i 7) = Val.null :=
  ⟨rfl, rfl, rfl, rfl,
   C5_store_get_validation.1 _ _ _ "a.x" (Val.i 7) "a" _ "x" (Val.i 5) rfl rfl rfl rfl⟩

/-- C5: counterexample to the claim as stated.  A store holding
{"x": 5} under domain "a", with a validator that rejects the retrieved
value, is asked for "a.x" with the supplied default 7: the claim
promises the default 7, but getValue returns null (7 is not null). -/
theorem C5_counterexample :
    pyStoreGetValue ⟨fun _ _ => Val.null, fun _ => Val.i 1, fun _ _ => .error (), fun _ _ _ => .ok true⟩
      (fun _ => none) ⟨true, false, false, [("a", ⟨Val.dict [("x", Val.i 5)], [], false⟩)]⟩
      "a.x" (Val.i 7) = Val.null ∧
    (Val.i 7).isNull = false :=
  ⟨rfl, rfl⟩
